import Mathlib

/-!
# Verification of the NexusCollectionBatch acquisition engine

Shallow embedding of the repository's pure logic (URL normalization,
link dedup, filename classification, the per-target download-resolution
state machine of `process_mod`, the orchestrator's install handoff and
exit-code logic, and the download-completion poll), together with proofs
and refutations of the spec claims.

Conventions of the embedding:
* Python strings are Lean `String`s; most logic is implemented over
  `List Char` (`String.data`) so that proofs can proceed by structural
  induction.
* Python stdlib helpers used by the code (`urllib.parse.urlparse`,
  `parse_qs`, `unquote_plus`, `int(...)`, `str.strip`, `str.lower`,
  `pathlib` name/suffix extraction) are modelled faithfully for the
  ASCII fragment the program manipulates; `urlparse` includes CPython's
  removal of the unsafe bytes `\t`, `\r`, `\n` (the legacy `;params`
  split of the last path segment and percent-decoding of multi-byte
  UTF-8 sequences are not modelled; no claim depends on them).
* Effectful steps of `process_mod` (HTTP requests, browser clicks,
  download events, directory scans) are parameterized by an environment
  of oracle outcomes; the control flow acting on those outcomes is
  translated statement by statement from the source.
-/

namespace NexusBatch

/-! ## Generic list/character utilities -/

/-- Split a character list at the first occurrence of `sep`.
Returns the prefix before `sep` and, when `sep` occurs, the remainder
after it. -/
def splitFirst (sep : Char) : List Char → List Char × Option (List Char)
  | [] => ([], none)
  | c :: rest =>
    if c = sep then ([], some rest)
    else
      let r := splitFirst sep rest
      (c :: r.1, r.2)

theorem splitFirst_of_not_mem (sep : Char) (xs : List Char) (h : sep ∉ xs) :
    splitFirst sep xs = (xs, none) := by
  induction xs with
  | nil => rfl
  | cons c rest ih =>
    simp only [List.mem_cons, not_or] at h
    simp [splitFirst, Ne.symm h.1, ih h.2]

theorem splitFirst_append_of_not_mem (sep : Char) (xs ys : List Char) (h : sep ∉ xs) :
    splitFirst sep (xs ++ sep :: ys) = (xs, some ys) := by
  induction xs with
  | nil => simp [splitFirst]
  | cons c rest ih =>
    simp only [List.mem_cons, not_or] at h
    simp [splitFirst, Ne.symm h.1, ih h.2]

/-- The part before the separator never contains the separator. -/
theorem splitFirst_fst_not_mem (sep : Char) (xs : List Char) :
    sep ∉ (splitFirst sep xs).1 := by
  induction xs with
  | nil => simp [splitFirst]
  | cons c rest ih =>
    by_cases hc : c = sep
    · simp [splitFirst, hc]
    · simp only [splitFirst, if_neg hc, List.mem_cons, not_or]
      exact ⟨fun h => hc h.symm, ih⟩

/-- Split at the first character belonging to `delims`; the delimiter is
kept at the head of the remainder (CPython `_splitnetloc` behaviour). -/
def splitUntilMem (delims : List Char) : List Char → List Char × List Char
  | [] => ([], [])
  | c :: rest =>
    if c ∈ delims then ([], c :: rest)
    else
      let r := splitUntilMem delims rest
      (c :: r.1, r.2)

theorem splitUntilMem_append (delims : List Char) (xs ys : List Char) (d : Char)
    (hxs : ∀ c ∈ xs, c ∉ delims) (hd : d ∈ delims) :
    splitUntilMem delims (xs ++ d :: ys) = (xs, d :: ys) := by
  induction xs with
  | nil => simp [splitUntilMem, hd]
  | cons c rest ih =>
    have hc : c ∉ delims := hxs c (by simp)
    simp [splitUntilMem, hc, ih (fun x hx => hxs x (by simp [hx]))]

theorem mem_dropWhile {p : Char → Bool} :
    ∀ {xs : List Char} {c : Char}, c ∈ xs.dropWhile p → c ∈ xs := by
  intro xs
  induction xs with
  | nil => intro c h; simp [List.dropWhile] at h
  | cons a rest ih =>
    intro c h
    by_cases hp : p a
    · simp only [List.dropWhile, hp] at h
      exact List.mem_cons_of_mem a (ih h)
    · have hp' : p a = false := by simpa using hp
      simp only [List.dropWhile, hp'] at h
      exact h

theorem dropWhile_eq_self_of_head {p : Char → Bool} :
    ∀ {xs : List Char}, (∀ c, xs.head? = some c → p c = false) → xs.dropWhile p = xs := by
  intro xs h
  cases xs with
  | nil => rfl
  | cons a rest =>
    have : p a = false := h a rfl
    simp [List.dropWhile, this]

theorem dropWhile_head_false {p : Char → Bool} :
    ∀ {xs : List Char} {c : Char}, (xs.dropWhile p).head? = some c → p c = false := by
  intro xs
  induction xs with
  | nil => intro c h; simp [List.dropWhile] at h
  | cons a rest ih =>
    intro c h
    by_cases hp : p a
    · simp only [List.dropWhile, hp] at h
      exact ih h
    · have hp' : p a = false := by simpa using hp
      simp only [List.dropWhile, hp'] at h
      simp only [List.head?_cons, Option.some.injEq] at h
      rw [← h]
      exact hp'

theorem dropWhile_idem (p : Char → Bool) (xs : List Char) :
    (xs.dropWhile p).dropWhile p = xs.dropWhile p := by
  apply dropWhile_eq_self_of_head
  intro c h
  exact dropWhile_head_false h

/-- Strip the given characters from both ends (Python `str.strip()`
specialised to a character predicate). -/
def stripChars (p : Char → Bool) (xs : List Char) : List Char :=
  ((xs.dropWhile p).reverse.dropWhile p).reverse

/-- Strip the given characters from the right end only
(Python `str.rstrip(chars)`). -/
def rstripChars (p : Char → Bool) (xs : List Char) : List Char :=
  (xs.reverse.dropWhile p).reverse

/-- `rstrip` is idempotent. -/
theorem rstripChars_idem (p : Char → Bool) (xs : List Char) :
    rstripChars p (rstripChars p xs) = rstripChars p xs := by
  unfold rstripChars
  rw [List.reverse_reverse, dropWhile_idem]

/-- Characters remaining after `rstrip` come from the input. -/
theorem mem_rstripChars {p : Char → Bool} {xs : List Char} {c : Char}
    (h : c ∈ rstripChars p xs) : c ∈ xs := by
  unfold rstripChars at h
  rw [List.mem_reverse] at h
  exact List.mem_reverse.mp (mem_dropWhile h)

theorem stripChars_eq_self {p : Char → Bool} {xs : List Char}
    (h : ∀ c ∈ xs, p c = false) : stripChars p xs = xs := by
  unfold stripChars
  have h1 : xs.dropWhile p = xs := by
    apply dropWhile_eq_self_of_head
    intro c hc
    cases xs with
    | nil => simp at hc
    | cons a rest =>
      simp only [List.head?_cons, Option.some.injEq] at hc
      exact h c (hc ▸ List.mem_cons_self a rest)
  rw [h1]
  have h2 : xs.reverse.dropWhile p = xs.reverse := by
    apply dropWhile_eq_self_of_head
    intro c hc
    cases hxs : xs.reverse with
    | nil => rw [hxs] at hc; simp at hc
    | cons a rest =>
      rw [hxs] at hc
      simp only [List.head?_cons, Option.some.injEq] at hc
      apply h c
      rw [← List.mem_reverse, hxs, ← hc]
      exact List.mem_cons_self a rest
  rw [h2, List.reverse_reverse]

/-- ASCII lower-casing, as applied by Python `str.lower` on the ASCII
fragment handled by this program. -/
def asciiLower (c : Char) : Char :=
  if 65 ≤ c.toNat ∧ c.toNat ≤ 90 then Char.ofNat (c.toNat + 32) else c

def lowerList (xs : List Char) : List Char := xs.map asciiLower

def lowerStr (s : String) : String := ⟨lowerList s.data⟩

/-- Substring containment (Python `in` on strings). -/
def containsSub (needle : List Char) (hay : List Char) : Bool :=
  hay.tails.any (fun t => needle.isPrefixOf t)

def strContains (hay needle : String) : Bool :=
  containsSub needle.data hay.data

/-- Decimal digit test. -/
def isDigitCh (c : Char) : Bool := 48 ≤ c.toNat && c.toNat ≤ 57

/-- Python `int(...)`/`str.strip()` whitespace (ASCII fragment). -/
def isSpaceCh (c : Char) : Bool :=
  c.toNat = 32 || c.toNat = 9 || c.toNat = 10 || c.toNat = 13 || c.toNat = 11 || c.toNat = 12

/-- Numeric value of a digit list, most significant first. -/
def digitsVal (xs : List Char) : Nat :=
  xs.foldl (fun a c => a * 10 + (c.toNat - 48)) 0

/-- Core of `int(s)` after whitespace stripping: optional sign, then a
nonempty run of decimal digits. -/
def pyIntCore : List Char → Option Int
  | [] => none
  | c :: rest =>
    if c = '+' then
      if rest ≠ [] ∧ rest.all isDigitCh then some (digitsVal rest : Int) else none
    else if c = '-' then
      if rest ≠ [] ∧ rest.all isDigitCh then some (-(digitsVal rest : Int)) else none
    else if (c :: rest).all isDigitCh then some (digitsVal (c :: rest) : Int) else none

/-- Python `int(s)`: strip whitespace, optional sign, then decimal
digits (underscore digit grouping is not modelled). -/
def pyInt (xs : List Char) : Option Int :=
  pyIntCore (stripChars isSpaceCh xs)

/-- Decimal rendering of a natural number, fuel-based so that it
computes by `decide`. -/
def natChars : Nat → Nat → List Char
  | 0, _ => []
  | fuel + 1, n =>
    if n < 10 then [Char.ofNat (48 + n)]
    else natChars fuel (n / 10) ++ [Char.ofNat (48 + n % 10)]

/-- Decimal rendering of a natural number (Python `str(n)` for `n ≥ 0`). -/
def natStr (n : Nat) : List Char := natChars (n + 1) n

theorem digitsVal_append_digit (xs : List Char) (c : Char) :
    digitsVal (xs ++ [c]) = digitsVal xs * 10 + (c.toNat - 48) := by
  simp [digitsVal, List.foldl_append]

theorem digitChar_toNat (d : Nat) (hd : d < 10) : (Char.ofNat (48 + d)).toNat = 48 + d := by
  interval_cases d <;> decide

theorem digitChar_isDigit (d : Nat) (hd : d < 10) : isDigitCh (Char.ofNat (48 + d)) = true := by
  interval_cases d <;> decide

theorem natChars_spec : ∀ fuel n, n < fuel →
    natChars fuel n ≠ [] ∧
      digitsVal (natChars fuel n) = n ∧
      (∀ c ∈ natChars fuel n, isDigitCh c = true)
  | 0, n, h => absurd h (Nat.not_lt_zero n)
  | fuel + 1, n, h => by
    by_cases hn : n < 10
    · refine ⟨by simp [natChars, hn], ?_, ?_⟩
      · simp [natChars, hn, digitsVal, digitChar_toNat n hn]
      · intro c hc
        simp only [natChars, if_pos hn, List.mem_singleton] at hc
        rw [hc]; exact digitChar_isDigit n hn
    · have hdiv : n / 10 < fuel := by
        have h1 : n / 10 < n := Nat.div_lt_self (by omega) (by omega)
        omega
      have ih := natChars_spec fuel (n / 10) hdiv
      have hmod : n % 10 < 10 := Nat.mod_lt _ (by omega)
      refine ⟨by simp [natChars, hn], ?_, ?_⟩
      · simp only [natChars, if_neg hn]
        rw [digitsVal_append_digit, ih.2.1, digitChar_toNat (n % 10) hmod]
        omega
      · intro c hc
        simp only [natChars, if_neg hn, List.mem_append, List.mem_singleton] at hc
        rcases hc with hc | hc
        · exact ih.2.2 c hc
        · rw [hc]; exact digitChar_isDigit (n % 10) hmod

theorem natStr_nonempty (n : Nat) : natStr n ≠ [] :=
  (natChars_spec (n + 1) n (Nat.lt_succ_self n)).1

theorem natStr_digits (n : Nat) : ∀ c ∈ natStr n, isDigitCh c = true :=
  (natChars_spec (n + 1) n (Nat.lt_succ_self n)).2.2

theorem natStr_val (n : Nat) : digitsVal (natStr n) = n :=
  (natChars_spec (n + 1) n (Nat.lt_succ_self n)).2.1

theorem digit_toNat_bounds {c : Char} (h : isDigitCh c = true) :
    48 ≤ c.toNat ∧ c.toNat ≤ 57 := by
  simp only [isDigitCh, Bool.and_eq_true, decide_eq_true_eq] at h
  exact h

theorem char_ne_of_toNat_ne {c d : Char} (h : c.toNat ≠ d.toNat) : c ≠ d := by
  intro hEq; exact h (by rw [hEq])

/-- Digits are none of the URL metacharacters or whitespace. -/
theorem digit_not_special {c : Char} (h : isDigitCh c = true) :
    c ≠ '&' ∧ c ≠ '=' ∧ c ≠ '#' ∧ c ≠ '?' ∧ c ≠ '%' ∧ c ≠ '+' ∧ c ≠ '/' ∧
      c ≠ ':' ∧ isSpaceCh c = false := by
  have hb := digit_toNat_bounds h
  refine ⟨?_, ?_, ?_, ?_, ?_, ?_, ?_, ?_, ?_⟩
  · exact char_ne_of_toNat_ne (by simp only [show ('&').toNat = 38 from rfl]; omega)
  · exact char_ne_of_toNat_ne (by simp only [show ('=').toNat = 61 from rfl]; omega)
  · exact char_ne_of_toNat_ne (by simp only [show ('#').toNat = 35 from rfl]; omega)
  · exact char_ne_of_toNat_ne (by simp only [show ('?').toNat = 63 from rfl]; omega)
  · exact char_ne_of_toNat_ne (by simp only [show ('%').toNat = 37 from rfl]; omega)
  · exact char_ne_of_toNat_ne (by simp only [show ('+').toNat = 43 from rfl]; omega)
  · exact char_ne_of_toNat_ne (by simp only [show ('/').toNat = 47 from rfl]; omega)
  · exact char_ne_of_toNat_ne (by simp only [show (':').toNat = 58 from rfl]; omega)
  · simp only [isSpaceCh, Bool.or_eq_false_iff, decide_eq_false_iff_not]
    omega

theorem pyInt_natStr (n : Nat) : pyInt (natStr n) = some (n : Int) := by
  have hne := natStr_nonempty n
  have hdig := natStr_digits n
  have hstrip : stripChars isSpaceCh (natStr n) = natStr n :=
    stripChars_eq_self (fun c hc => (digit_not_special (hdig c hc)).2.2.2.2.2.2.2.2)
  have hall : (natStr n).all isDigitCh = true := List.all_eq_true.mpr (natStr_digits n)
  have hval := natStr_val n
  unfold pyInt
  rw [hstrip]
  obtain ⟨c, rest, hm⟩ : ∃ c rest, natStr n = c :: rest := by
    cases hx : natStr n with
    | nil => exact absurd hx hne
    | cons a b => exact ⟨a, b, rfl⟩
  have hc : isDigitCh c = true := hdig c (hm ▸ List.mem_cons_self c rest)
  have hcplus : c ≠ '+' := (digit_not_special hc).2.2.2.2.2.1
  have hcminus : c ≠ '-' := by
    have hb := digit_toNat_bounds hc
    exact char_ne_of_toNat_ne (by simp only [show ('-').toNat = 45 from rfl]; omega)
  rw [hm] at hall hval ⊢
  simp [pyIntCore, hcplus, hcminus, hall, hval]

/-! ## Models of `urllib.parse` helpers -/

/-- Hexadecimal digit value. -/
def hexVal (c : Char) : Option Nat :=
  if 48 ≤ c.toNat ∧ c.toNat ≤ 57 then some (c.toNat - 48)
  else if 97 ≤ c.toNat ∧ c.toNat ≤ 102 then some (c.toNat - 87)
  else if 65 ≤ c.toNat ∧ c.toNat ≤ 70 then some (c.toNat - 55)
  else none

/-- Fuel-based core of `unquote_plus`; the fuel is always at least the
input length, so the `0` case never fires on real inputs. -/
def unquotePlusAux : Nat → List Char → List Char
  | 0, xs => xs
  | _ + 1, [] => []
  | fuel + 1, c :: rest =>
    if c = '+' then ' ' :: unquotePlusAux fuel rest
    else if c = '%' then
      match rest with
      | c1 :: c2 :: rest2 =>
        match hexVal c1, hexVal c2 with
        | some h1, some h2 => Char.ofNat (16 * h1 + h2) :: unquotePlusAux fuel rest2
        | _, _ => '%' :: unquotePlusAux fuel rest
      | _ => '%' :: unquotePlusAux fuel rest
    else c :: unquotePlusAux fuel rest

/-- Python `urllib.parse.unquote_plus` (ASCII fragment): `+` becomes a
space, valid `%XX` escapes are decoded, invalid ones pass through. -/
def unquotePlus (xs : List Char) : List Char := unquotePlusAux xs.length xs

theorem unquotePlusAux_eq_self :
    ∀ (fuel : Nat) {xs : List Char}, '%' ∉ xs → '+' ∉ xs → unquotePlusAux fuel xs = xs := by
  intro fuel
  induction fuel with
  | zero => intro xs _ _; rfl
  | succ fuel ih =>
    intro xs h1 h2
    cases xs with
    | nil => rfl
    | cons c rest =>
      simp only [List.mem_cons, not_or] at h1 h2
      simp [unquotePlusAux, Ne.symm h2.1, Ne.symm h1.1, ih h1.2 h2.2]

theorem unquotePlus_eq_self {xs : List Char} (h1 : '%' ∉ xs) (h2 : '+' ∉ xs) :
    unquotePlus xs = xs :=
  unquotePlusAux_eq_self xs.length h1 h2

/-- Python `str.split(sep)` for a one-character separator. -/
def splitAllOn (sep : Char) : List Char → List (List Char)
  | [] => [[]]
  | c :: rest =>
    if c = sep then [] :: splitAllOn sep rest
    else
      match splitAllOn sep rest with
      | [] => [[c]]
      | g :: gs => (c :: g) :: gs

theorem splitAllOn_ne_nil (sep : Char) (xs : List Char) : splitAllOn sep xs ≠ [] := by
  induction xs with
  | nil => simp [splitAllOn]
  | cons c rest ih =>
    by_cases hc : c = sep
    · simp [splitAllOn, hc]
    · simp only [splitAllOn, if_neg hc]
      cases hsplit : splitAllOn sep rest with
      | nil => simp
      | cons g gs => simp

theorem splitAllOn_of_not_mem (sep : Char) (xs : List Char) (h : sep ∉ xs) :
    splitAllOn sep xs = [xs] := by
  induction xs with
  | nil => rfl
  | cons c rest ih =>
    simp only [List.mem_cons, not_or] at h
    have hrest := ih h.2
    simp only [splitAllOn, if_neg (fun hc => h.1 (Eq.symm hc))]
    rw [hrest]

theorem splitAllOn_append (sep : Char) (xs ys : List Char) (h : sep ∉ xs) :
    splitAllOn sep (xs ++ sep :: ys) = xs :: splitAllOn sep ys := by
  induction xs with
  | nil => simp [splitAllOn]
  | cons c rest ih =>
    simp only [List.mem_cons, not_or] at h
    have hrest := ih h.2
    simp only [List.cons_append, splitAllOn, if_neg (fun hc => h.1 (Eq.symm hc))]
    simp only [List.append_eq]
    rw [hrest]

/-- One field of a query string, as `parse_qsl` treats it with default
options: empty fields and fields without `=` or with an empty value are
dropped; names and values are unquoted. -/
def parseQsPair (field : List Char) : Option (List Char × List Char) :=
  if field = [] then none
  else
    match splitFirst '=' field with
    | (_, none) => none
    | (name, some value) =>
      if value = [] then none
      else some (unquotePlus name, unquotePlus value)

/-- Python `urllib.parse.parse_qs`, represented as an ordered list of
(name, value) pairs. -/
def pyParseQs (query : List Char) : List (List Char × List Char) :=
  (splitAllOn '&' query).filterMap parseQsPair

/-- All values bound to `name`, in order (`parse_qs(...)[name]`). -/
def qsGetAll (name : List Char) : List (List Char × List Char) → List (List Char)
  | [] => []
  | p :: rest => if p.1 = name then p.2 :: qsGetAll name rest else qsGetAll name rest

theorem pyParseQs_nil : pyParseQs [] = [] := by decide

structure UrlParts where
  scheme : List Char
  netloc : List Char
  path : List Char
  query : List Char
deriving DecidableEq

def isAlphaCh (c : Char) : Bool :=
  (65 ≤ c.toNat ∧ c.toNat ≤ 90) ∨ (97 ≤ c.toNat ∧ c.toNat ≤ 122)

def isSchemeChar (c : Char) : Bool :=
  isAlphaCh c || isDigitCh c || c = '+' || c = '-' || c = '.'

/-- CPython removes `\t`, `\r`, `\n` from a URL before splitting it. -/
def isSafeUrlByte (c : Char) : Bool := ¬(c.toNat = 9 ∨ c.toNat = 13 ∨ c.toNat = 10)

/-- A valid scheme prefix: leading letter, then letters/digits/`+-.`. -/
def validScheme (xs : List Char) : Bool :=
  (match xs with
   | [] => false
   | c :: _ => isAlphaCh c) && xs.all isSchemeChar

/-- Scheme extraction of `urlsplit`: lowercased scheme and remainder, or
no scheme and the whole input. -/
def schemeSplit (cs : List Char) : List Char × List Char :=
  let s := splitFirst ':' cs
  match s.2 with
  | some r => if validScheme s.1 then (lowerList s.1, r) else ([], cs)
  | none => ([], cs)

/-- Netloc extraction of `urlsplit`: when the remainder starts with
`//`, the netloc runs until the first of `/?#` (which stays in the
remainder). -/
def netlocSplit (rest : List Char) : List Char × List Char :=
  match rest with
  | a :: b :: r2 =>
    if a = '/' ∧ b = '/' then splitUntilMem ['/', '?', '#'] r2 else ([], rest)
  | _ => ([], rest)

/-- Python `urllib.parse.urlparse` restricted to the four components the
program reads (scheme, netloc, path, query); parameters and fragments
are discarded exactly as the program never looks at them. -/
def pyUrlparse (url : String) : UrlParts :=
  let cs := url.data.filter isSafeUrlByte
  let sr := schemeSplit cs
  let nr := netlocSplit sr.2
  let beforeFrag := (splitFirst '#' nr.2).1
  let pq := splitFirst '?' beforeFrag
  ⟨sr.1, nr.1, pq.1, pq.2.getD []⟩

/-! ## URL Normalizer (`nexus_browser_first.py`) -/

/-- Model of `MOD_PATH_RE = ^/[^/]+/mods/\d+/?$` with `re.IGNORECASE`
(only the literal `mods` is case-insensitive). -/
def digitsThenOptSlash (xs : List Char) : Bool :=
  if xs.getLast? = some '/' then xs.dropLast ≠ [] ∧ xs.dropLast.all isDigitCh
  else xs ≠ [] ∧ xs.all isDigitCh

def matchModPath (path : List Char) : Bool :=
  match path with
  | c :: rest =>
    if c = '/' then
      let s1 := splitFirst '/' rest
      match s1.2 with
      | some rest2 =>
        decide (s1.1 ≠ []) &&
          (let s2 := splitFirst '/' rest2
           match s2.2 with
           | some rest3 => decide (lowerList s2.1 = "mods".data) && digitsThenOptSlash rest3
           | none => false)
      | none => false
    else false
  | [] => false

/-- Canonical URL rendering used by `normalize_mod_target_url`:
`https://www.nexusmods.com{path}` plus, when a positive file id is
present, `?` + `urlencode({'tab': 'files', 'file_id': fid})`. -/
def renderCanonical (path : List Char) (fid : Option Nat) : List Char :=
  "https://www.nexusmods.com".data ++ path ++
    (match fid with
     | none => []
     | some m => '?' :: ("tab=files&file_id=".data ++ natStr m))

/-- First `file_id` query value parsed as an int, `None` on parse
failure (`normalize_mod_target_url` lines 224-231). -/
def firstFileId (query : List Char) : Option Int :=
  match qsGetAll "file_id".data (pyParseQs query) with
  | [] => none
  | v :: _ => pyInt v

def isSlash (c : Char) : Bool := c = '/'

/-- The tail of `normalize_mod_target_url`: keep the file id only when
present and positive (lines 232-235). -/
def canonicalOfFileId (path : List Char) (fid : Option Int) : String :=
  match fid with
  | some n => if n > 0 then ⟨renderCanonical path (some n.toNat)⟩ else ⟨renderCanonical path none⟩
  | none => ⟨renderCanonical path none⟩

/-- `normalize_mod_target_url` (`nexus_browser_first.py` 212-235). -/
def normalize_mod_target_url (url : String) : Option String :=
  if ¬((pyUrlparse url).scheme = "http".data ∨ (pyUrlparse url).scheme = "https".data) then none
  else if ¬(lowerList (pyUrlparse url).netloc = "www.nexusmods.com".data ∨
            lowerList (pyUrlparse url).netloc = "nexusmods.com".data) then none
  else if ¬ matchModPath (rstripChars isSlash (pyUrlparse url).path) then none
  else some (canonicalOfFileId (rstripChars isSlash (pyUrlparse url).path)
      (firstFileId (pyUrlparse url).query))

/-- `parse_mod_target` (`nexus_browser_first.py` 238-256): result triple
(domain, mod id, file id). -/
def parse_mod_target (url : String) : Option String × Option Int × Option Int :=
  match normalize_mod_target_url url with
  | none => (none, none, none)
  | some normalized =>
    if normalized.data = [] then (none, none, none)
    else
      let parsed := pyUrlparse normalized
      let parts := splitAllOn '/' (stripChars isSlash parsed.path)
      match parts with
      | p0 :: p1 :: p2 :: _ =>
        if p1 ≠ "mods".data then (none, none, none)
        else
          match pyInt p2 with
          | none => (none, none, none)
          | some modId => (some ⟨lowerList p0⟩, some modId, firstFileId parsed.query)
      | _ => (none, none, none)

/-- `dedupe_links` (`nexus_browser_first.py` 198-209): seen-set loop. -/
def dedupeAux : List String → List String → List String
  | [], _ => []
  | l :: rest, seen =>
    match normalize_mod_target_url l with
    | none => dedupeAux rest seen
    | some canonical =>
      if canonical ∈ seen then dedupeAux rest seen
      else canonical :: dedupeAux rest (canonical :: seen)

def dedupe_links (links : List String) : List String := dedupeAux links []

/-! ### Provenance lemmas: which characters can reach each component -/

theorem splitFirst_fst_subset (sep : Char) :
    ∀ {xs : List Char} {c : Char}, c ∈ (splitFirst sep xs).1 → c ∈ xs := by
  intro xs
  induction xs with
  | nil => intro c h; simp [splitFirst] at h
  | cons a rest ih =>
    intro c h
    by_cases ha : a = sep
    · simp [splitFirst, ha] at h
    · simp only [splitFirst, if_neg ha, List.mem_cons] at h
      rcases h with h | h
      · simp [h]
      · exact List.mem_cons_of_mem a (ih h)

theorem splitFirst_snd_subset (sep : Char) :
    ∀ {xs r : List Char} {c : Char}, (splitFirst sep xs).2 = some r → c ∈ r → c ∈ xs := by
  intro xs
  induction xs with
  | nil => intro r c h; simp [splitFirst] at h
  | cons a rest ih =>
    intro r c h hc
    by_cases ha : a = sep
    · simp only [splitFirst, if_pos ha, Option.some.injEq] at h
      exact List.mem_cons_of_mem a (h ▸ hc)
    · simp only [splitFirst, if_neg ha] at h
      exact List.mem_cons_of_mem a (ih h hc)

theorem splitUntilMem_fst_subset (delims : List Char) :
    ∀ {xs : List Char} {c : Char}, c ∈ (splitUntilMem delims xs).1 → c ∈ xs := by
  intro xs
  induction xs with
  | nil => intro c h; simp [splitUntilMem] at h
  | cons a rest ih =>
    intro c h
    by_cases ha : a ∈ delims
    · simp [splitUntilMem, ha] at h
    · simp only [splitUntilMem, if_neg ha, List.mem_cons] at h
      rcases h with h | h
      · simp [h]
      · exact List.mem_cons_of_mem a (ih h)

theorem splitUntilMem_snd_subset (delims : List Char) :
    ∀ {xs : List Char} {c : Char}, c ∈ (splitUntilMem delims xs).2 → c ∈ xs := by
  intro xs
  induction xs with
  | nil => intro c h; simp [splitUntilMem] at h
  | cons a rest ih =>
    intro c h
    by_cases ha : a ∈ delims
    · simp only [splitUntilMem, if_pos ha] at h
      exact h
    · simp only [splitUntilMem, if_neg ha] at h
      exact List.mem_cons_of_mem a (ih h)

theorem schemeSplit_snd_subset {cs : List Char} {c : Char}
    (h : c ∈ (schemeSplit cs).2) : c ∈ cs := by
  unfold schemeSplit at h
  simp only [] at h
  rcases hs : (splitFirst ':' cs).2 with _ | r
  · rw [hs] at h; exact h
  · rw [hs] at h
    simp only [] at h
    by_cases hv : validScheme (splitFirst ':' cs).1 = true
    · rw [if_pos hv] at h
      exact splitFirst_snd_subset ':' hs h
    · rw [if_neg hv] at h
      exact h

theorem netlocSplit_snd_subset {rest : List Char} {c : Char}
    (h : c ∈ (netlocSplit rest).2) : c ∈ rest := by
  match rest with
  | [] => exact h
  | [a] => exact h
  | a :: b :: r2 =>
    unfold netlocSplit at h
    by_cases hab : a = '/' ∧ b = '/'
    · simp only [if_pos hab] at h
      exact List.mem_cons_of_mem a (List.mem_cons_of_mem b (splitUntilMem_snd_subset _ h))
    · simp only [if_neg hab] at h
      exact h

/-- The path produced by `pyUrlparse` contains no `?`, no `#`, and only
unsafe-byte-free characters. -/
theorem pyUrlparse_path_props (u : String) :
    '?' ∉ (pyUrlparse u).path ∧ '#' ∉ (pyUrlparse u).path ∧
      ∀ c ∈ (pyUrlparse u).path, isSafeUrlByte c = true := by
  unfold pyUrlparse
  simp only []
  refine ⟨splitFirst_fst_not_mem _ _, ?_, ?_⟩
  · intro hmem
    exact splitFirst_fst_not_mem '#' _ (splitFirst_fst_subset '?' hmem)
  · intro c hc
    have h1 := splitFirst_fst_subset '?' hc
    have h2 := splitFirst_fst_subset '#' h1
    have h3 := netlocSplit_snd_subset h2
    have h4 := schemeSplit_snd_subset h3
    exact List.of_mem_filter h4

/-! ### Parsing the rendered canonical URL -/

theorem schemeSplit_https (rest : List Char) :
    schemeSplit ("https".data ++ ':' :: rest) = ("https".data, rest) := by
  unfold schemeSplit
  rw [splitFirst_append_of_not_mem ':' "https".data rest (by decide)]
  simp only []
  rw [if_pos (by decide : validScheme "https".data = true)]
  rw [show lowerList "https".data = "https".data from by decide]

theorem netlocSplit_www (tail : List Char) :
    netlocSplit ('/' :: '/' :: ("www.nexusmods.com".data ++ '/' :: tail)) =
      ("www.nexusmods.com".data, '/' :: tail) := by
  show (if '/' = '/' ∧ '/' = '/' then
      splitUntilMem ['/', '?', '#'] ("www.nexusmods.com".data ++ '/' :: tail)
    else ([], '/' :: '/' :: ("www.nexusmods.com".data ++ '/' :: tail))) =
      ("www.nexusmods.com".data, '/' :: tail)
  rw [if_pos ⟨rfl, rfl⟩]
  exact splitUntilMem_append _ _ _ '/'
    ((by decide : ∀ x ∈ "www.nexusmods.com".data, x ∉ (['/', '?', '#'] : List Char)))
    (by decide)

theorem render_data_eq (ptail q : List Char) :
    "https://www.nexusmods.com".data ++ ('/' :: ptail) ++ q =
      "https".data ++ ':' :: ('/' :: '/' :: ("www.nexusmods.com".data ++ '/' :: (ptail ++ q))) := by
  have h1 : "https://www.nexusmods.com".data =
      "https".data ++ ':' :: '/' :: '/' :: "www.nexusmods.com".data := by decide
  rw [h1]
  simp [List.append_assoc]

/-- `pyUrlparse` of a rendered canonical URL with no query. -/
theorem pyUrlparse_render_noq (ptail : List Char)
    (hq : '?' ∉ ptail) (hh : '#' ∉ ptail) (hsafe : ∀ c ∈ ptail, isSafeUrlByte c = true) :
    pyUrlparse ⟨"https://www.nexusmods.com".data ++ ('/' :: ptail)⟩ =
      ⟨"https".data, "www.nexusmods.com".data, '/' :: ptail, []⟩ := by
  unfold pyUrlparse
  have hfil : ("https://www.nexusmods.com".data ++ ('/' :: ptail)).filter isSafeUrlByte =
      "https://www.nexusmods.com".data ++ ('/' :: ptail) := by
    rw [List.filter_eq_self]
    intro a ha
    rcases List.mem_append.mp ha with ha | ha
    · exact (by decide : ∀ x ∈ "https://www.nexusmods.com".data, isSafeUrlByte x = true) a ha
    · rcases List.mem_cons.mp ha with ha | ha
      · subst ha; decide
      · exact hsafe a ha
  simp only []
  rw [hfil]
  rw [show "https://www.nexusmods.com".data ++ ('/' :: ptail) =
      "https://www.nexusmods.com".data ++ ('/' :: ptail) ++ [] from (List.append_nil _).symm]
  rw [render_data_eq ptail [], List.append_nil]
  rw [schemeSplit_https, netlocSplit_www]
  simp only []
  rw [splitFirst_of_not_mem '#' ('/' :: ptail)
      (by simp only [List.mem_cons, not_or]; exact ⟨by decide, hh⟩)]
  simp only []
  rw [splitFirst_of_not_mem '?' ('/' :: ptail)
      (by simp only [List.mem_cons, not_or]; exact ⟨by decide, hq⟩)]
  rfl

/-- `pyUrlparse` of a rendered canonical URL with a query part. -/
theorem pyUrlparse_render_q (ptail qb : List Char)
    (hq : '?' ∉ ptail) (hh : '#' ∉ ptail) (hsafe : ∀ c ∈ ptail, isSafeUrlByte c = true)
    (hqh : '#' ∉ qb) (hqsafe : ∀ c ∈ qb, isSafeUrlByte c = true) :
    pyUrlparse ⟨"https://www.nexusmods.com".data ++ ('/' :: ptail) ++ '?' :: qb⟩ =
      ⟨"https".data, "www.nexusmods.com".data, '/' :: ptail, qb⟩ := by
  unfold pyUrlparse
  have hfil : ("https://www.nexusmods.com".data ++ ('/' :: ptail) ++ '?' :: qb).filter isSafeUrlByte =
      "https://www.nexusmods.com".data ++ ('/' :: ptail) ++ '?' :: qb := by
    rw [List.filter_eq_self]
    intro a ha
    rcases List.mem_append.mp ha with ha | ha
    · rcases List.mem_append.mp ha with ha | ha
      · exact (by decide : ∀ x ∈ "https://www.nexusmods.com".data, isSafeUrlByte x = true) a ha
      · rcases List.mem_cons.mp ha with ha | ha
        · subst ha; decide
        · exact hsafe a ha
    · rcases List.mem_cons.mp ha with ha | ha
      · subst ha; decide
      · exact hqsafe a ha
  simp only []
  rw [hfil, render_data_eq ptail ('?' :: qb)]
  rw [schemeSplit_https, netlocSplit_www]
  simp only []
  have hfrag : '#' ∉ '/' :: (ptail ++ '?' :: qb) := by
    simp only [List.mem_cons, List.mem_append, not_or]
    exact ⟨by decide, hh, by decide, hqh⟩
  rw [splitFirst_of_not_mem '#' _ hfrag]
  simp only []
  rw [show '/' :: (ptail ++ '?' :: qb) = ('/' :: ptail) ++ '?' :: qb from rfl]
  rw [splitFirst_append_of_not_mem '?' ('/' :: ptail) qb
      (by simp only [List.mem_cons, not_or]; exact ⟨by decide, hq⟩)]
  rfl

theorem matchModPath_shape {path : List Char} (h : matchModPath path = true) :
    ∃ ptail, path = '/' :: ptail := by
  match path with
  | [] => simp [matchModPath] at h
  | c :: rest =>
    by_cases hc : c = '/'
    · exact ⟨rest, by rw [hc]⟩
    · simp only [matchModPath, if_neg hc] at h
      exact absurd h (by simp)

theorem firstFileId_nil : firstFileId [] = none := by decide

/-- The first `file_id` value of the rendered query is the rendered id. -/
theorem firstFileId_render (m : Nat) :
    firstFileId ("tab=files&file_id=".data ++ natStr m) = some (m : Int) := by
  have hAmpDigits : ('&' : Char) ∉ natStr m := fun hmem =>
    (digit_not_special (natStr_digits m '&' hmem)).1 rfl
  have hsplit : splitAllOn '&' ("tab=files&file_id=".data ++ natStr m) =
      ["tab=files".data, "file_id=".data ++ natStr m] := by
    have hdec : "tab=files&file_id=".data ++ natStr m =
        "tab=files".data ++ '&' :: ("file_id=".data ++ natStr m) := by
      rw [show "tab=files&file_id=".data = "tab=files".data ++ '&' :: "file_id=".data from by
        decide]
      simp
    rw [hdec]
    rw [splitAllOn_append '&' "tab=files".data ("file_id=".data ++ natStr m) (by decide)]
    rw [splitAllOn_of_not_mem '&' ("file_id=".data ++ natStr m) ?ne]
    case ne =>
      intro hmem
      rcases List.mem_append.mp hmem with hmem | hmem
      · exact (by decide : ('&' : Char) ∉ "file_id=".data) hmem
      · exact hAmpDigits hmem
  have h1 : parseQsPair "tab=files".data = some ("tab".data, "files".data) := by decide
  have h2 : parseQsPair ("file_id=".data ++ natStr m) = some ("file_id".data, natStr m) := by
    have hdec2 : "file_id=".data ++ natStr m = "file_id".data ++ '=' :: natStr m := by
      rw [show "file_id=".data = "file_id".data ++ ['='] from by decide, List.append_assoc]
      rfl
    rw [hdec2]
    unfold parseQsPair
    rw [if_neg (by
      intro hnil
      have := List.append_eq_nil.mp hnil
      exact (by decide : "file_id".data ≠ []) this.1)]
    rw [splitFirst_append_of_not_mem '=' "file_id".data (natStr m) (by decide)]
    simp only []
    rw [if_neg (natStr_nonempty m)]
    rw [show unquotePlus "file_id".data = "file_id".data from by decide]
    rw [unquotePlus_eq_self
      (fun hmem => (digit_not_special (natStr_digits m _ hmem)).2.2.2.2.1 rfl)
      (fun hmem => (digit_not_special (natStr_digits m _ hmem)).2.2.2.2.2.1 rfl)]
  unfold firstFileId pyParseQs
  rw [hsplit]
  simp only [List.filterMap, h1, h2]
  rw [show qsGetAll "file_id".data
      [("tab".data, "files".data), ("file_id".data, natStr m)] = [natStr m] from by
    rw [qsGetAll, if_neg (by decide : ¬(("tab".data, "files".data).1 = "file_id".data)),
      qsGetAll, if_pos (rfl : ("file_id".data, natStr m).1 = "file_id".data), qsGetAll]]
  exact pyInt_natStr m

theorem digits_safe (m : Nat) : ∀ c ∈ natStr m, isSafeUrlByte c = true := by
  intro c hm
  have hb := digit_toNat_bounds (natStr_digits m c hm)
  simp only [isSafeUrlByte, decide_eq_true_eq]
  push_neg
  refine ⟨by omega, by omega, by omega⟩

/-- Normalizing a rendered canonical URL (with an already-canonical path
and an optional positive file id) returns it unchanged. -/
theorem normalize_render_eval (ptail : List Char) (fid : Option Nat)
    (hrs : rstripChars isSlash ('/' :: ptail) = '/' :: ptail)
    (hmatch : matchModPath ('/' :: ptail) = true)
    (hqt : '?' ∉ ptail) (hht : '#' ∉ ptail)
    (hsafet : ∀ c ∈ ptail, isSafeUrlByte c = true)
    (hfpos : ∀ m, fid = some m → 0 < m) :
    normalize_mod_target_url ⟨renderCanonical ('/' :: ptail) fid⟩ =
      some ⟨renderCanonical ('/' :: ptail) fid⟩ := by
  cases fid with
  | none =>
    have hrender : renderCanonical ('/' :: ptail) none =
        "https://www.nexusmods.com".data ++ ('/' :: ptail) := by
      simp [renderCanonical]
    rw [hrender]
    unfold normalize_mod_target_url
    rw [pyUrlparse_render_noq ptail hqt hht hsafet]
    split
    · next hcond => exact absurd (Or.inr rfl) hcond
    split
    · next hcond => exact absurd (Or.inl (show lowerList "www.nexusmods.com".data = "www.nexusmods.com".data from by decide)) hcond
    rw [show UrlParts.path ⟨"https".data, "www.nexusmods.com".data, '/' :: ptail, []⟩ =
        '/' :: ptail from rfl]
    rw [show UrlParts.query ⟨"https".data, "www.nexusmods.com".data, '/' :: ptail, []⟩ =
        [] from rfl]
    rw [hrs, if_neg (not_not_intro hmatch), firstFileId_nil]
    simp only [canonicalOfFileId]
    rw [hrender]
  | some m =>
    have hm : 0 < m := hfpos m rfl
    have hrender : renderCanonical ('/' :: ptail) (some m) =
        "https://www.nexusmods.com".data ++ ('/' :: ptail) ++
          '?' :: ("tab=files&file_id=".data ++ natStr m) := by
      simp [renderCanonical]
    rw [hrender]
    unfold normalize_mod_target_url
    rw [pyUrlparse_render_q ptail _ hqt hht hsafet
      (fun hm2 => by
        rcases List.mem_append.mp hm2 with hm2 | hm2
        · exact (by decide : ('#' : Char) ∉ "tab=files&file_id=".data) hm2
        · exact (digit_not_special (natStr_digits m _ hm2)).2.2.1 rfl)
      (fun c hm2 => by
        rcases List.mem_append.mp hm2 with hm2 | hm2
        · exact (by decide : ∀ x ∈ "tab=files&file_id=".data, isSafeUrlByte x = true) c hm2
        · exact digits_safe m c hm2)]
    split
    · next hcond => exact absurd (Or.inr rfl) hcond
    split
    · next hcond => exact absurd (Or.inl (show lowerList "www.nexusmods.com".data = "www.nexusmods.com".data from by decide)) hcond
    rw [show UrlParts.path ⟨"https".data, "www.nexusmods.com".data, '/' :: ptail,
        "tab=files&file_id=".data ++ natStr m⟩ = '/' :: ptail from rfl]
    rw [show UrlParts.query ⟨"https".data, "www.nexusmods.com".data, '/' :: ptail,
        "tab=files&file_id=".data ++ natStr m⟩ = "tab=files&file_id=".data ++ natStr m from rfl]
    rw [hrs, if_neg (not_not_intro hmatch), firstFileId_render m]
    simp only [canonicalOfFileId]
    rw [if_pos (by exact_mod_cast hm : ((m : Int)) > 0)]
    rw [show ((m : Int)).toNat = m from by omega, hrender]

/-- Destructured form of a successful `normalize_mod_target_url` run:
the canonical path, its salient properties, and the rendered result. -/
theorem normalize_success_shape {u s : String}
    (h : normalize_mod_target_url u = some s) :
    ∃ ptail fid,
      s.data = renderCanonical ('/' :: ptail) fid ∧
      rstripChars isSlash ('/' :: ptail) = '/' :: ptail ∧
      matchModPath ('/' :: ptail) = true ∧
      '?' ∉ ptail ∧ '#' ∉ ptail ∧
      (∀ c ∈ ptail, isSafeUrlByte c = true) ∧
      (∀ m, fid = some m → 0 < m) := by
  have props := pyUrlparse_path_props u
  unfold normalize_mod_target_url at h
  by_cases h1 : (pyUrlparse u).scheme = "http".data ∨ (pyUrlparse u).scheme = "https".data
  swap
  · rw [if_pos (by exact h1)] at h; exact absurd h (by simp)
  rw [if_neg (not_not_intro h1)] at h
  by_cases h2 : lowerList (pyUrlparse u).netloc = "www.nexusmods.com".data ∨
      lowerList (pyUrlparse u).netloc = "nexusmods.com".data
  swap
  · rw [if_pos (by exact h2)] at h; exact absurd h (by simp)
  rw [if_neg (not_not_intro h2)] at h
  set path := rstripChars isSlash (pyUrlparse u).path with hpath
  by_cases h3 : matchModPath path = true
  swap
  · rw [if_pos (by exact h3)] at h; exact absurd h (by simp)
  rw [if_neg (not_not_intro h3)] at h
  have hq : '?' ∉ path := fun hm => props.1 (mem_rstripChars hm)
  have hh : '#' ∉ path := fun hm => props.2.1 (mem_rstripChars hm)
  have hsafe : ∀ c ∈ path, isSafeUrlByte c = true := fun c hm =>
    props.2.2 c (mem_rstripChars hm)
  have hrs : rstripChars isSlash path = path := by
    rw [hpath, rstripChars_idem]
  obtain ⟨ptail, hshape⟩ := matchModPath_shape h3
  rw [hshape] at hq hh hsafe hrs h3
  have hqt : '?' ∉ ptail := fun hm => hq (List.mem_cons_of_mem _ hm)
  have hht : '#' ∉ ptail := fun hm => hh (List.mem_cons_of_mem _ hm)
  have hsafet : ∀ c ∈ ptail, isSafeUrlByte c = true := fun c hm =>
    hsafe c (List.mem_cons_of_mem _ hm)
  rw [Option.some.injEq] at h
  rcases hfid : firstFileId (pyUrlparse u).query with _ | n
  all_goals rw [hfid] at h
  · simp only [canonicalOfFileId] at h
    refine ⟨ptail, none, ?_, hrs, h3, hqt, hht, hsafet, by simp⟩
    rw [← h, ← hshape]
  · simp only [canonicalOfFileId] at h
    by_cases hn : n > 0
    swap
    · rw [if_neg hn] at h
      refine ⟨ptail, none, ?_, hrs, h3, hqt, hht, hsafet, by simp⟩
      rw [← h, ← hshape]
    · rw [if_pos hn] at h
      refine ⟨ptail, some n.toNat, ?_, hrs, h3, hqt, hht, hsafet, ?_⟩
      · rw [← h, ← hshape]
      · intro m hm
        rw [Option.some.injEq] at hm
        omega

/-- `normalize_mod_target_url` is idempotent: re-normalizing a canonical
URL returns it unchanged. -/
theorem normalize_mod_target_url_idem {u s : String}
    (h : normalize_mod_target_url u = some s) :
    normalize_mod_target_url s = some s := by
  obtain ⟨ptail, fid, hdata, hrs, hmatch, hqt, hht, hsafet, hfpos⟩ := normalize_success_shape h
  have hs : s = ⟨renderCanonical ('/' :: ptail) fid⟩ := by
    cases s with
    | mk data => exact congrArg String.mk hdata
  rw [hs]
  exact normalize_render_eval ptail fid hrs hmatch hqt hht hsafet hfpos

/-! ## Filename classification (`nexus_browser_first.py`) -/

/-- `pathlib` final path component (`Path(...).name`), splitting on both
separators as `WindowsPath` does; empty trailing components dropped. -/
def pathName (xs : List Char) : List Char :=
  match (((splitAllOn '/' xs).map (splitAllOn '\\')).flatten.filter (fun p => p ≠ [])).getLast? with
  | some p => p
  | none => []

def pathNameStr (s : String) : String := ⟨pathName s.data⟩

/-- `pathlib` `Path(...).suffix`: from the final component, the part
from the last dot, unless that dot is leading or trailing. -/
def pathSuffix (xs : List Char) : List Char :=
  let nm := pathName xs
  match splitAllOn '.' nm with
  | [] => []
  | [_] => []
  | g1 :: rest =>
    let lastG := (g1 :: rest).getLastD []
    if lastG = [] then []
    else if g1 = [] ∧ rest.length = 1 then []
    else '.' :: lastG

/-- `TEMP_DOWNLOAD_EXTENSIONS = {".crdownload", ".part", ".tmp"}`. -/
def TEMP_DOWNLOAD_EXTENSIONS : List (List Char) :=
  [".crdownload".data, ".part".data, ".tmp".data]

/-- `is_temp_download` (`nexus_browser_first.py` 133-134). -/
def is_temp_download (name : String) : Bool :=
  lowerList (pathSuffix name.data) ∈ TEMP_DOWNLOAD_EXTENSIONS

/-- Hexadecimal digit (both cases), for the UUID-shaped pattern. -/
def isHexCh (c : Char) : Bool :=
  isDigitCh c || (97 ≤ c.toNat && c.toNat ≤ 102) || (65 ≤ c.toNat && c.toNat ≤ 70)

/-- `SUSPICIOUS_FILENAME_RE = ^[0-9a-f]{8}-[0-9a-f]{4}-[0-9a-f]{4}-`
`[0-9a-f]{4}-[0-9a-f]{12}$` with `re.IGNORECASE`: since the character
class excludes `-`, a match is exactly a 5-way dash split with the
right group lengths, all hex. -/
def suspiciousFilenameMatch (xs : List Char) : Bool :=
  match splitAllOn '-' xs with
  | [a, b, c, d, e] =>
    a.length = 8 && b.length = 4 && c.length = 4 && d.length = 4 && e.length = 12 &&
      a.all isHexCh && b.all isHexCh && c.all isHexCh && d.all isHexCh && e.all isHexCh
  | _ => false

/-- `is_good_archive_name` (`nexus_browser_first.py` 162-169),
translated branch for branch: note the final two branches both
return `False`. -/
def is_good_archive_name (name : String) : Bool :=
  let lower := lowerList name.data
  if ".zip".data.isSuffixOf lower || ".7z".data.isSuffixOf lower ||
      ".rar".data.isSuffixOf lower then true
  else
    let stem := pathName name.data
    if suspiciousFilenameMatch stem then false
    else false

/-- `is_ssl_verify_error` (`nexus_browser_first.py` 414-416). -/
def is_ssl_verify_error (msg : String) : Bool :=
  strContains (lowerStr msg) "certificate verify failed" ||
    strContains (lowerStr msg) "self-signed certificate"

/-! ## Download-completion poll (`nexus_browser_first.py` 137-159) -/

/-- Sizes sampled by `wait_until_file_is_stable`; `none` means the file
vanished at that check, aborting the loop. -/
def collectSizes : List (Option Nat) → Option (List Nat)
  | [] => some []
  | none :: _ => none
  | some sz :: rest => (collectSizes rest).map (sz :: ·)

/-- `wait_until_file_is_stable`: `False` for a missing or temporary
file; otherwise the size samples must all exist and be equal
(`len(set(sizes)) == 1`). -/
def wait_until_file_is_stable (name : String) (initialExists : Bool)
    (samples : List (Option Nat)) : Bool :=
  if ¬initialExists ∨ is_temp_download name then false
  else
    match collectSizes samples with
    | none => false
    | some sizes => sizes.dedup.length = 1

/-- One directory scan of `wait_for_new_completed_download`: the files
present (already ordered by descending mtime, as the code sorts them)
plus the stability oracles consulted for each file. -/
structure PollSnap where
  files : List String
  initialExists : String → Bool
  samples : String → List (Option Nat)

/-- Body of one iteration: new non-temporary files, first stable one. -/
def findStableNew (snap : PollSnap) (baseline : List String) : Option String :=
  (((snap.files.filter (fun f => decide (f ∉ baseline))).filter
      (fun f => !(is_temp_download f))).find?
    (fun f => wait_until_file_is_stable f (snap.initialExists f) (snap.samples f)))

/-- `wait_for_new_completed_download`: successive scans until the
timeout (list exhaustion) or a stable new file. -/
def wait_for_new_completed_download (snaps : List PollSnap) (baseline : List String) :
    Option String :=
  match snaps with
  | [] => none
  | snap :: rest =>
    match findStableNew snap baseline with
    | some p => some p
    | none => wait_for_new_completed_download rest baseline

/-! ## The per-target resolver state machine (`process_mod`, 558-761) -/

structure ItemResult where
  index : Nat
  mod_url : String
  status : String
  reason : String
deriving DecidableEq

/-- Outcome of one full direct-path attempt (URL resolution plus
download): the final path of the downloaded file, or the text of the
raised exception. -/
inductive DirectOutcome
  | success (downloadedPath : String)
  | failure (errMsg : String)
deriving DecidableEq

/-- State snapshot observed at the top of one verification-poll
iteration (lines 686-747): the listener-written lists, the interstitial
text probe, and the result of the 1-second directory scan. -/
structure PollObs where
  savedDownloads : List String
  seenDownloads : List String
  startedTextVisible : Bool
  newCompletedFile : Option String
deriving DecidableEq

/-- Oracle environment for one `process_mod` run: the per-call
parameters plus the outcomes of every effectful step the control flow
can consult. -/
structure ProcEnv where
  mod_url : String
  dry_run : Bool
  verify_downloads : Bool
  cookie_header : Option String
  game_id : Option Int
  directResult : DirectOutcome
  retryResult : DirectOutcome
  nav1 : Option String
  nav2 : Option String
  slowClick1 : Option String
  manualClick : Option String
  slowClick2 : Option String
  pollObs : List PollObs
  finalErrors : List String

/-- Python truthiness of an optional string. -/
def truthyOptStr : Option String → Bool
  | none => false
  | some s => decide (s.data ≠ [])

/-- Python truthiness of an optional int. -/
def truthyOptInt : Option Int → Bool
  | none => false
  | some n => decide (n ≠ 0)

/-- The guard of the direct path (line 572):
`verify_downloads and cookie_header and game_id and file_id and mod_id`
`and domain_name`, under Python truthiness. -/
def directGate (env : ProcEnv) : Bool :=
  env.verify_downloads && truthyOptStr env.cookie_header && truthyOptInt env.game_id &&
    truthyOptInt (parse_mod_target env.mod_url).2.2 &&
    truthyOptInt (parse_mod_target env.mod_url).2.1 &&
    truthyOptStr (parse_mod_target env.mod_url).1

/-- Classification of a successful direct download (lines 588-590 and
609-611): archive-looking name is `ok` with the full path in the
reason, anything else is `partial` with the file name. -/
def directResultFor (d : String) (insecure : Bool) : String × String :=
  if is_good_archive_name (pathNameStr d) then
    ("ok", (if insecure then "direct_download_insecure_ssl:" else "direct_download:") ++ d)
  else ("partial", "direct_download_suspicious:" ++ pathNameStr d)

/-- Outcome of one poll iteration: terminate with a result or continue
with the (possibly consumed) manual-retry flag. -/
inductive StepRes
  | done (r : String × String)
  | cont (retryUsed : Bool)
deriving DecidableEq

/-- Lines 739-745: the 1-second directory scan result. -/
def pollFileCase (retryUsed : Bool) : Option String → StepRes
  | some nm => .done ("ok", "download_file_detected:" ++ nm)
  | none => .cont retryUsed

/-- Lines 720-747: the interstitial-text probe and the 1-second
directory scan, reached when no (bad) download event decided the
iteration. -/
def pollAfterSeen (o : PollObs) (retryUsed : Bool) : StepRes :=
  if o.startedTextVisible && !retryUsed then .cont true
  else pollFileCase retryUsed o.newCompletedFile

/-- Lines 694-718: reaction to the last download event seen so far. -/
def pollSeenCase (o : PollObs) (retryUsed : Bool) : Option String → StepRes
  | some lastName =>
    if is_good_archive_name lastName then pollAfterSeen o retryUsed
    else if retryUsed = false then .cont true
    else .done ("partial", "suspicious_download_filename:" ++ lastName)
  | none => pollAfterSeen o retryUsed

/-- One iteration of the verification loop (lines 686-747). -/
def pollStep (o : PollObs) (retryUsed : Bool) : StepRes :=
  if o.savedDownloads ≠ [] then
    .done ("ok", "download_saved:" ++ o.savedDownloads.getLastD "")
  else pollSeenCase o retryUsed o.seenDownloads.getLast?

/-- Timeout exit of the verification loop (lines 753-755). -/
def timeoutRes (finalErrors : List String) : String × String :=
  match finalErrors.getLast? with
  | some err => ("partial", "download_save_error:" ++ err)
  | none => ("partial", "download_signal_not_detected_in_time")

/-- The verification loop: the observation list is one entry per
iteration that starts before the deadline. -/
def pollLoop : List PollObs → Bool → List String → String × String
  | [], _, finalErrors => timeoutRes finalErrors
  | o :: rest, retryUsed, finalErrors =>
    match pollStep o retryUsed with
    | .done r => r
    | .cont retry2 => pollLoop rest retry2 finalErrors

/-- `nav_error` after the two navigation attempts (lines 617-626). -/
def navError (env : ProcEnv) : Option String :=
  match env.nav1 with
  | none => none
  | some _ => env.nav2

/-- After a successful click: wait for verification, or `ok`
immediately when verification is disabled (lines 683-761). -/
def clickAfter (env : ProcEnv) : String × String :=
  if env.verify_downloads then pollLoop env.pollObs false env.finalErrors
  else ("ok", "manual_and_slow_clicked")

/-- Lines 673-679: the second slow/free search after a manual click. -/
def clickSlow2Case (env : ProcEnv) : Option String → String × String
  | none => ("partial", "download_confirmation_button_not_found")
  | some _ => clickAfter env

/-- Lines 664-679: the manual-download search. -/
def clickManualCase (env : ProcEnv) : Option String → String × String
  | none => ("fallback_needed", "manual_button_not_found")
  | some _ => clickSlow2Case env env.slowClick2

/-- Lines 661-679: the first slow/free search. -/
def clickSlow1Case (env : ProcEnv) : Option String → String × String
  | some _ => clickAfter env
  | none => clickManualCase env env.manualClick

/-- Lines 617-632: navigation outcome, then the dry-run short-circuit. -/
def clickNavCase (env : ProcEnv) : Option String → String × String
  | some e => ("fail", "navigation_error: " ++ e)
  | none =>
    if env.dry_run then ("dry_run", "navigation_only")
    else clickSlow1Case env env.slowClick1

/-- The click-fallback phase (lines 617-761): navigation, dry-run
short-circuit, slow-then-manual-then-slow click sequence. -/
def clickPhase (env : ProcEnv) : String × String :=
  clickNavCase env (navError env)

/-- Lines 603-613: the single verification-disabled retry. -/
def directRetryCase (env : ProcEnv) : DirectOutcome → String × String
  | .success d => directResultFor d true
  | .failure _ => clickPhase env

/-- Lines 591-615: reaction to a direct-path exception. -/
def directFailCase (env : ProcEnv) (msg : String) : String × String :=
  if is_ssl_verify_error msg then directRetryCase env env.retryResult
  else clickPhase env

/-- Lines 572-615: the first direct attempt. -/
def directCase (env : ProcEnv) : DirectOutcome → String × String
  | .success d => directResultFor d false
  | .failure msg => directFailCase env msg

/-- The direct path with its single certificate-error retry
(lines 572-615), falling through to the click phase. -/
def directPhase (env : ProcEnv) : String × String :=
  directCase env env.directResult

/-- The (status, reason) pair computed by `process_mod`. -/
def procPair (env : ProcEnv) : String × String :=
  if directGate env then directPhase env else clickPhase env

/-- `process_mod` (`nexus_browser_first.py` 558-761). -/
def process_mod (env : ProcEnv) : ItemResult :=
  ⟨0, env.mod_url, (procPair env).1, (procPair env).2⟩

/-! ## V3 runner (`auto_que.py`) and install stager (`v3_install.py`) -/

/-- `find_download_path` (`auto_que.py` 214-218). -/
def find_download_path (reason : String) : Option String :=
  if "download_saved:".data.isPrefixOf reason.data then
    some ⟨stripChars isSpaceCh (reason.data.drop "download_saved:".data.length)⟩
  else if "direct_download:".data.isPrefixOf reason.data then
    some ⟨stripChars isSpaceCh (reason.data.drop "direct_download:".data.length)⟩
  else if "direct_download_insecure_ssl:".data.isPrefixOf reason.data then
    some ⟨stripChars isSpaceCh (reason.data.drop "direct_download_insecure_ssl:".data.length)⟩
  else none

/-- The accumulation of `downloaded_files` over the download stage
(`auto_que.py` 282-307): the paths extracted from each result's reason,
in encounter order. -/
def run_download_stage_files (results : List ItemResult) : List String :=
  results.filterMap (fun r => find_download_path r.reason)

/-- `unique_downloads` of `install_downloaded_archives`
(`v3_install.py` 69-76): first occurrence per exact string. -/
def uniqueAux : List String → List String → List String
  | [], _ => []
  | p :: rest, seen =>
    if p ∈ seen then uniqueAux rest seen else p :: uniqueAux rest (p :: seen)

def unique_downloads (paths : List String) : List String := uniqueAux paths []

/-- Stage-4 gate of `auto_que.main` (line 419): the install stage runs
unless `skip_install` or `dry_run`. -/
def install_stage_runs (skip_install dry_run : Bool) : Bool :=
  !(skip_install || dry_run)

/-! ## Run-level outcome handling (both `main` functions) -/

/-- How a run ends: normally, by user interrupt, or by an unexpected
top-level exception with message text. -/
inductive RunOutcome
  | completed
  | interrupted
  | failed (msg : String)
deriving DecidableEq

/-- Python truthiness of `run_data.get("fatal_error")`. -/
def truthyFatal : Option String → Bool
  | none => false
  | some s => decide (s.data ≠ [])

/-- The `fatal_error` report field set by the handlers of
`nexus_browser_first.main` (lines 918-925). -/
def nexus_fatal_error : RunOutcome → Option String
  | .completed => none
  | .interrupted => some "Interrupted by user (Ctrl+C)"
  | .failed msg => some msg

/-- Completion code of `nexus_browser_first.main` (lines 935-939). -/
def nexus_main_exit (o : RunOutcome) : Nat :=
  if o = .interrupted then 130
  else if truthyFatal (nexus_fatal_error o) then 1
  else 0

/-- The `fatal_error` report field set by the handlers of
`auto_que.main` (lines 433-438). -/
def autoque_fatal_error : RunOutcome → Option String
  | .completed => none
  | .interrupted => some "Interrupted by user (Ctrl+C)"
  | .failed msg => some msg

/-- Completion code of `auto_que.main` (lines 440-444): no separate
interrupt code after the run has started. -/
def autoque_main_exit (o : RunOutcome) : Nat :=
  if truthyFatal (autoque_fatal_error o) then 1
  else 0

/-! ## Classification of resolver outcomes -/

theorem pollAfterSeen_done {o : PollObs} {retry : Bool} {r : String × String}
    (h : pollAfterSeen o retry = .done r) :
    ∃ s, r = ("ok", "download_file_detected:" ++ s) := by
  unfold pollAfterSeen at h
  by_cases h1 : (o.startedTextVisible && !retry) = true
  · rw [if_pos h1] at h
    cases h
  · rw [if_neg h1] at h
    cases hnc : o.newCompletedFile with
    | some nm =>
      rw [hnc] at h
      simp only [pollFileCase] at h
      cases h
      exact ⟨nm, rfl⟩
    | none =>
      rw [hnc] at h
      cases h

theorem pollStep_done {o : PollObs} {retry : Bool} {r : String × String}
    (h : pollStep o retry = .done r) :
    (∃ s, r = ("ok", "download_saved:" ++ s)) ∨
    (∃ s, r = ("ok", "download_file_detected:" ++ s)) ∨
    (∃ s, r = ("partial", "suspicious_download_filename:" ++ s)) := by
  unfold pollStep at h
  by_cases h1 : o.savedDownloads ≠ []
  · rw [if_pos h1] at h
    cases h
    left; exact ⟨_, rfl⟩
  · rw [if_neg h1] at h
    cases hseen : o.seenDownloads.getLast? with
    | some lastName =>
      rw [hseen] at h
      simp only [pollSeenCase] at h
      by_cases hgood : is_good_archive_name lastName = true
      · rw [if_pos hgood] at h
        right; left
        exact pollAfterSeen_done h
      · rw [if_neg hgood] at h
        by_cases hr : retry = false
        · rw [if_pos hr] at h
          cases h
        · rw [if_neg hr] at h
          cases h
          right; right; exact ⟨_, rfl⟩
    | none =>
      rw [hseen] at h
      simp only [pollSeenCase] at h
      right; left
      exact pollAfterSeen_done h

theorem pollLoop_shape : ∀ (obs : List PollObs) (retry : Bool) (errs : List String),
    (∃ s, pollLoop obs retry errs = ("ok", "download_saved:" ++ s)) ∨
    (∃ s, pollLoop obs retry errs = ("ok", "download_file_detected:" ++ s)) ∨
    (∃ s, pollLoop obs retry errs = ("partial", "suspicious_download_filename:" ++ s)) ∨
    (∃ s, pollLoop obs retry errs = ("partial", "download_save_error:" ++ s)) ∨
    pollLoop obs retry errs = ("partial", "download_signal_not_detected_in_time") := by
  intro obs
  induction obs with
  | nil =>
    intro retry errs
    unfold pollLoop timeoutRes
    cases h : errs.getLast? with
    | none => right; right; right; right; rfl
    | some err => right; right; right; left; exact ⟨err, rfl⟩
  | cons o rest ih =>
    intro retry errs
    unfold pollLoop
    cases h : pollStep o retry with
    | cont r2 => exact ih r2 errs
    | done r =>
      rcases pollStep_done h with ⟨s, hs⟩ | ⟨s, hs⟩ | ⟨s, hs⟩
      · left; exact ⟨s, hs⟩
      · right; left; exact ⟨s, hs⟩
      · right; right; left; exact ⟨s, hs⟩

theorem clickAfter_shape (env : ProcEnv) :
    clickAfter env = ("ok", "manual_and_slow_clicked") ∨
    (∃ s, clickAfter env = ("ok", "download_saved:" ++ s)) ∨
    (∃ s, clickAfter env = ("ok", "download_file_detected:" ++ s)) ∨
    (∃ s, clickAfter env = ("partial", "suspicious_download_filename:" ++ s)) ∨
    (∃ s, clickAfter env = ("partial", "download_save_error:" ++ s)) ∨
    clickAfter env = ("partial", "download_signal_not_detected_in_time") := by
  unfold clickAfter
  by_cases hv : env.verify_downloads = true
  · rw [if_pos hv]
    rcases pollLoop_shape env.pollObs false env.finalErrors with h | h | h | h | h
    · right; left; exact h
    · right; right; left; exact h
    · right; right; right; left; exact h
    · right; right; right; right; left; exact h
    · right; right; right; right; right; exact h
  · rw [if_neg hv]
    left; rfl

theorem clickPhase_shape (env : ProcEnv) :
    (∃ e, clickPhase env = ("fail", "navigation_error: " ++ e)) ∨
    clickPhase env = ("dry_run", "navigation_only") ∨
    clickPhase env = ("fallback_needed", "manual_button_not_found") ∨
    clickPhase env = ("partial", "download_confirmation_button_not_found") ∨
    clickPhase env = ("ok", "manual_and_slow_clicked") ∨
    (∃ s, clickPhase env = ("ok", "download_saved:" ++ s)) ∨
    (∃ s, clickPhase env = ("ok", "download_file_detected:" ++ s)) ∨
    (∃ s, clickPhase env = ("partial", "suspicious_download_filename:" ++ s)) ∨
    (∃ s, clickPhase env = ("partial", "download_save_error:" ++ s)) ∨
    clickPhase env = ("partial", "download_signal_not_detected_in_time") := by
  unfold clickPhase
  cases hnav : navError env with
  | some e =>
    simp only [clickNavCase]
    left; exact ⟨e, rfl⟩
  | none =>
    simp only [clickNavCase]
    by_cases hdry : env.dry_run = true
    · rw [if_pos hdry]
      right; left; rfl
    · rw [if_neg hdry]
      have hafter : ∀ hres : String × String, hres = clickAfter env →
          (∃ e, hres = ("fail", "navigation_error: " ++ e)) ∨
          hres = ("dry_run", "navigation_only") ∨
          hres = ("fallback_needed", "manual_button_not_found") ∨
          hres = ("partial", "download_confirmation_button_not_found") ∨
          hres = ("ok", "manual_and_slow_clicked") ∨
          (∃ s, hres = ("ok", "download_saved:" ++ s)) ∨
          (∃ s, hres = ("ok", "download_file_detected:" ++ s)) ∨
          (∃ s, hres = ("partial", "suspicious_download_filename:" ++ s)) ∨
          (∃ s, hres = ("partial", "download_save_error:" ++ s)) ∨
          hres = ("partial", "download_signal_not_detected_in_time") := by
        intro hres heq
        subst heq
        rcases clickAfter_shape env with h | h | h | h | h | h
        · right; right; right; right; left; exact h
        · right; right; right; right; right; left; exact h
        · right; right; right; right; right; right; left; exact h
        · right; right; right; right; right; right; right; left; exact h
        · right; right; right; right; right; right; right; right; left; exact h
        · right; right; right; right; right; right; right; right; right; exact h
      cases hs1 : env.slowClick1 with
      | some sel =>
        simp only [clickSlow1Case]
        exact hafter _ rfl
      | none =>
        simp only [clickSlow1Case]
        cases hman : env.manualClick with
        | none =>
          simp only [clickManualCase]
          right; right; left; trivial
        | some msel =>
          simp only [clickManualCase]
          cases hs2 : env.slowClick2 with
          | none =>
            simp only [clickSlow2Case]
            right; right; right; left; trivial
          | some sel2 =>
            simp only [clickSlow2Case]
            exact hafter _ rfl

theorem directResultFor_shape (d : String) (insecure : Bool) :
    (directResultFor d insecure =
      ("ok", (if insecure then "direct_download_insecure_ssl:" else "direct_download:") ++ d) ∧
      is_good_archive_name (pathNameStr d) = true) ∨
    (directResultFor d insecure = ("partial", "direct_download_suspicious:" ++ pathNameStr d) ∧
      is_good_archive_name (pathNameStr d) = false) := by
  unfold directResultFor
  by_cases hgood : is_good_archive_name (pathNameStr d) = true
  · rw [if_pos hgood]
    left; exact ⟨rfl, hgood⟩
  · rw [if_neg hgood]
    right; exact ⟨rfl, by simpa using hgood⟩

/-- Full classification of a `process_mod` result pair. -/
theorem procPair_shape (env : ProcEnv) :
    (∃ d, procPair env = ("ok", "direct_download:" ++ d)) ∨
    (∃ d, procPair env = ("ok", "direct_download_insecure_ssl:" ++ d)) ∨
    (∃ d, procPair env = ("partial", "direct_download_suspicious:" ++ d)) ∨
    (∃ e, procPair env = ("fail", "navigation_error: " ++ e)) ∨
    procPair env = ("dry_run", "navigation_only") ∨
    procPair env = ("fallback_needed", "manual_button_not_found") ∨
    procPair env = ("partial", "download_confirmation_button_not_found") ∨
    procPair env = ("ok", "manual_and_slow_clicked") ∨
    (∃ s, procPair env = ("ok", "download_saved:" ++ s)) ∨
    (∃ s, procPair env = ("ok", "download_file_detected:" ++ s)) ∨
    (∃ s, procPair env = ("partial", "suspicious_download_filename:" ++ s)) ∨
    (∃ s, procPair env = ("partial", "download_save_error:" ++ s)) ∨
    procPair env = ("partial", "download_signal_not_detected_in_time") := by
  have hclick : ∀ hres : String × String, hres = clickPhase env →
      (∃ d, hres = ("ok", "direct_download:" ++ d)) ∨
      (∃ d, hres = ("ok", "direct_download_insecure_ssl:" ++ d)) ∨
      (∃ d, hres = ("partial", "direct_download_suspicious:" ++ d)) ∨
      (∃ e, hres = ("fail", "navigation_error: " ++ e)) ∨
      hres = ("dry_run", "navigation_only") ∨
      hres = ("fallback_needed", "manual_button_not_found") ∨
      hres = ("partial", "download_confirmation_button_not_found") ∨
      hres = ("ok", "manual_and_slow_clicked") ∨
      (∃ s, hres = ("ok", "download_saved:" ++ s)) ∨
      (∃ s, hres = ("ok", "download_file_detected:" ++ s)) ∨
      (∃ s, hres = ("partial", "suspicious_download_filename:" ++ s)) ∨
      (∃ s, hres = ("partial", "download_save_error:" ++ s)) ∨
      hres = ("partial", "download_signal_not_detected_in_time") := by
    intro hres heq
    subst heq
    rcases clickPhase_shape env with h | h | h | h | h | h | h | h | h | h
    · right; right; right; left; exact h
    · right; right; right; right; left; exact h
    · right; right; right; right; right; left; exact h
    · right; right; right; right; right; right; left; exact h
    · right; right; right; right; right; right; right; left; exact h
    · right; right; right; right; right; right; right; right; left; exact h
    · right; right; right; right; right; right; right; right; right; left; exact h
    · right; right; right; right; right; right; right; right; right; right; left; exact h
    · right; right; right; right; right; right; right; right; right; right; right; left; exact h
    · right; right; right; right; right; right; right; right; right; right; right; right; exact h
  unfold procPair
  by_cases hg : directGate env = true
  swap
  · rw [if_neg hg]
    exact hclick _ rfl
  rw [if_pos hg]
  unfold directPhase
  cases hd : env.directResult with
  | success d =>
    simp only [directCase]
    rcases directResultFor_shape d false with ⟨heq, _⟩ | ⟨heq, _⟩
    · left; exact ⟨d, by simpa using heq⟩
    · right; right; left; exact ⟨pathNameStr d, heq⟩
  | failure msg =>
    simp only [directCase]
    unfold directFailCase
    by_cases hssl : is_ssl_verify_error msg = true
    swap
    · rw [if_neg hssl]
      exact hclick _ rfl
    rw [if_pos hssl]
    cases hr : env.retryResult with
    | success d =>
      simp only [directRetryCase]
      rcases directResultFor_shape d true with ⟨heq, _⟩ | ⟨heq, _⟩
      · right; left; exact ⟨d, by simpa using heq⟩
      · right; right; left; exact ⟨pathNameStr d, heq⟩
    | failure m2 =>
      simp only [directRetryCase]
      exact hclick _ rfl

/-! ## `find_download_path` characterization -/

theorem isPrefixOf_append_self (xs ys : List Char) : xs.isPrefixOf (xs ++ ys) = true := by
  induction xs with
  | nil => simp [List.isPrefixOf]
  | cons c rest ih => simp [List.isPrefixOf, ih]

theorem data_append (s t : String) : (s ++ t).data = s.data ++ t.data := rfl

theorem find_download_path_saved (p : String) :
    find_download_path ("download_saved:" ++ p) = some ⟨stripChars isSpaceCh p.data⟩ := by
  unfold find_download_path
  rw [data_append]
  rw [if_pos (isPrefixOf_append_self "download_saved:".data p.data)]
  rw [List.drop_left]

theorem find_download_path_direct (p : String) :
    find_download_path ("direct_download:" ++ p) = some ⟨stripChars isSpaceCh p.data⟩ := by
  unfold find_download_path
  rw [data_append]
  rw [if_neg (by
    rw [show ("download_saved:".data.isPrefixOf ("direct_download:".data ++ p.data)) = false
      from rfl]
    simp)]
  rw [if_pos (isPrefixOf_append_self "direct_download:".data p.data)]
  rw [List.drop_left]

theorem find_download_path_insecure (p : String) :
    find_download_path ("direct_download_insecure_ssl:" ++ p) =
      some ⟨stripChars isSpaceCh p.data⟩ := by
  unfold find_download_path
  rw [data_append]
  rw [if_neg (by
    rw [show ("download_saved:".data.isPrefixOf
        ("direct_download_insecure_ssl:".data ++ p.data)) = false from rfl]
    simp)]
  rw [if_neg (by
    rw [show ("direct_download:".data.isPrefixOf
        ("direct_download_insecure_ssl:".data ++ p.data)) = false from rfl]
    simp)]
  rw [if_pos (isPrefixOf_append_self "direct_download_insecure_ssl:".data p.data)]
  rw [List.drop_left]

theorem find_download_path_detected (nm : String) :
    find_download_path ("download_file_detected:" ++ nm) = none := rfl

theorem find_download_path_suspicious (d : String) :
    find_download_path ("direct_download_suspicious:" ++ d) = none := rfl

theorem find_download_path_nav (e : String) :
    find_download_path ("navigation_error: " ++ e) = none := rfl

theorem find_download_path_susp_name (s : String) :
    find_download_path ("suspicious_download_filename:" ++ s) = none := rfl

theorem find_download_path_save_error (s : String) :
    find_download_path ("download_save_error:" ++ s) = none := rfl

/-- Reasons bearing an extractable path only occur on `ok` results: for
every oracle environment, if `find_download_path` extracts a path from
the produced reason then the produced status is `ok`. -/
theorem find_path_implies_ok (env : ProcEnv)
    (h : (find_download_path (process_mod env).reason).isSome = true) :
    (process_mod env).status = "ok" := by
  have hst : (process_mod env).status = (procPair env).1 := rfl
  have hrs : (process_mod env).reason = (procPair env).2 := rfl
  rw [hrs] at h
  rw [hst]
  rcases procPair_shape env with ⟨d, hp⟩ | ⟨d, hp⟩ | ⟨d, hp⟩ | ⟨e, hp⟩ | hp | hp | hp | hp |
      ⟨s, hp⟩ | ⟨s, hp⟩ | ⟨s, hp⟩ | ⟨s, hp⟩ | hp
  all_goals rw [hp] at h ⊢
  all_goals first
    | rfl
    | (exfalso
       revert h
       first
        | (rw [find_download_path_suspicious]; decide)
        | (rw [find_download_path_nav]; decide)
        | (rw [find_download_path_susp_name]; decide)
        | (rw [find_download_path_save_error]; decide)
        | decide)

/-! ## Dedup machinery: `dedupe_links` and `unique_downloads` -/

theorem dedupeAux_mem : ∀ (links seen : List String) (s : String),
    s ∈ dedupeAux links seen → ∃ l ∈ links, normalize_mod_target_url l = some s := by
  intro links
  induction links with
  | nil => intro seen s hs; simp [dedupeAux] at hs
  | cons l rest ih =>
    intro seen s hs
    unfold dedupeAux at hs
    cases hn : normalize_mod_target_url l with
    | none =>
      simp only [hn] at hs
      obtain ⟨l', hl', hcan⟩ := ih seen s hs
      exact ⟨l', List.mem_cons_of_mem l hl', hcan⟩
    | some c =>
      simp only [hn] at hs
      by_cases hc : c ∈ seen
      · rw [if_pos hc] at hs
        obtain ⟨l', hl', hcan⟩ := ih seen s hs
        exact ⟨l', List.mem_cons_of_mem l hl', hcan⟩
      · rw [if_neg hc] at hs
        rcases List.mem_cons.mp hs with hs | hs
        · exact ⟨l, List.mem_cons_self l rest, by rw [hn, hs]⟩
        · obtain ⟨l', hl', hcan⟩ := ih (c :: seen) s hs
          exact ⟨l', List.mem_cons_of_mem l hl', hcan⟩

theorem dedupeAux_nodup : ∀ (links seen : List String),
    (dedupeAux links seen).Nodup ∧ ∀ s ∈ dedupeAux links seen, s ∉ seen := by
  intro links
  induction links with
  | nil =>
    intro seen
    exact ⟨by simp [dedupeAux], by intro s hs; simp [dedupeAux] at hs⟩
  | cons l rest ih =>
    intro seen
    cases hn : normalize_mod_target_url l with
    | none =>
      simp only [dedupeAux, hn]
      exact ih seen
    | some c =>
      simp only [dedupeAux, hn]
      by_cases hc : c ∈ seen
      · rw [if_pos hc]
        exact ih seen
      · rw [if_neg hc]
        obtain ⟨ihnd, ihseen⟩ := ih (c :: seen)
        refine ⟨List.nodup_cons.mpr ⟨?_, ihnd⟩, ?_⟩
        · intro hmem
          exact ihseen c hmem (List.mem_cons_self c seen)
        · intro s hs
          rcases List.mem_cons.mp hs with hs | hs
          · rw [hs]; exact hc
          · intro habs
            exact ihseen s hs (List.mem_cons_of_mem c habs)

theorem dedupeAux_sublist : ∀ (links seen : List String),
    List.Sublist (dedupeAux links seen) (links.filterMap normalize_mod_target_url) := by
  intro links
  induction links with
  | nil => intro seen; simp [dedupeAux]
  | cons l rest ih =>
    intro seen
    cases hn : normalize_mod_target_url l with
    | none =>
      simp only [dedupeAux, hn]
      rw [List.filterMap_cons_none hn]
      exact ih seen
    | some c =>
      simp only [dedupeAux, hn]
      rw [List.filterMap_cons_some hn]
      by_cases hc : c ∈ seen
      · rw [if_pos hc]
        exact (ih seen).cons c
      · rw [if_neg hc]
        exact (ih (c :: seen)).cons₂ c

theorem uniqueAux_nodup : ∀ (paths seen : List String),
    (uniqueAux paths seen).Nodup ∧ ∀ p ∈ uniqueAux paths seen, p ∉ seen := by
  intro paths
  induction paths with
  | nil =>
    intro seen
    exact ⟨by simp [uniqueAux], by intro p hp; simp [uniqueAux] at hp⟩
  | cons q rest ih =>
    intro seen
    unfold uniqueAux
    by_cases hq : q ∈ seen
    · rw [if_pos hq]
      exact ih seen
    · rw [if_neg hq]
      obtain ⟨ihnd, ihseen⟩ := ih (q :: seen)
      refine ⟨List.nodup_cons.mpr ⟨?_, ihnd⟩, ?_⟩
      · intro hmem
        exact ihseen q hmem (List.mem_cons_self q seen)
      · intro p hp
        rcases List.mem_cons.mp hp with hp | hp
        · rw [hp]; exact hq
        · intro habs
          exact ihseen p hp (List.mem_cons_of_mem q habs)

theorem uniqueAux_sublist : ∀ (paths seen : List String), List.Sublist (uniqueAux paths seen) paths := by
  intro paths
  induction paths with
  | nil => intro seen; simp [uniqueAux]
  | cons q rest ih =>
    intro seen
    unfold uniqueAux
    by_cases hq : q ∈ seen
    · rw [if_pos hq]
      exact (ih seen).cons q
    · rw [if_neg hq]
      exact (ih (q :: seen)).cons₂ q

theorem uniqueAux_mem : ∀ (paths seen : List String) (p : String),
    p ∈ paths → p ∉ seen → p ∈ uniqueAux paths seen := by
  intro paths
  induction paths with
  | nil => intro seen p hp; simp at hp
  | cons q rest ih =>
    intro seen p hp hps
    unfold uniqueAux
    by_cases hq : q ∈ seen
    · rw [if_pos hq]
      rcases List.mem_cons.mp hp with hp | hp
      · exact absurd (hp ▸ hq) hps
      · exact ih seen p hp hps
    · rw [if_neg hq]
      rcases List.mem_cons.mp hp with hp | hp
      · rw [hp]; exact List.mem_cons_self q _
      · by_cases hpq : p = q
        · rw [hpq]; exact List.mem_cons_self q _
        · exact List.mem_cons_of_mem q
            (ih (q :: seen) p hp (by
              intro habs
              rcases List.mem_cons.mp habs with habs | habs
              · exact hpq habs
              · exact hps habs))

/-- `links` of the `ExtractionResult` built by
`collect_links_via_network` (`nexus_browser_first.py` 513-528): the
collected candidate links after the final dedup of line 522. -/
def extraction_links (collected : List String) : List String := dedupe_links collected

/-! ## Sample oracle environments used by witnesses and counterexamples -/

/-- All direct-path prerequisites present; direct download succeeds
with an archive-named file. -/
def sampleEnvDirectOk : ProcEnv :=
  { mod_url := "https://www.nexusmods.com/game/mods/5?tab=files&file_id=7"
    dry_run := false
    verify_downloads := true
    cookie_header := some "sid=1"
    game_id := some 1303
    directResult := .success "C:/dl/mod.zip"
    retryResult := .failure "x"
    nav1 := none, nav2 := none
    slowClick1 := some "sel", manualClick := none, slowClick2 := none
    pollObs := [], finalErrors := [] }

/-- Direct download succeeds with a non-archive file name. -/
def sampleEnvDirectTxt : ProcEnv :=
  { sampleEnvDirectOk with directResult := .success "C:/dl/readme.txt" }

/-- Verification disabled: the direct gate is closed and the click path
returns `ok` without waiting for any file. -/
def sampleEnvNoVerify : ProcEnv :=
  { sampleEnvDirectOk with verify_downloads := false }

/-- Direct path fails with a non-certificate error; no click control is
found. -/
def sampleEnvOtherFail : ProcEnv :=
  { sampleEnvDirectOk with directResult := .failure "boom", slowClick1 := none }

/-- Dry run with a working direct path. -/
def sampleEnvDry : ProcEnv :=
  { sampleEnvDirectOk with dry_run := true }

/-- Dry run whose direct path fails, reaching the click fallback. -/
def sampleEnvDryFail : ProcEnv :=
  { sampleEnvDirectOk with dry_run := true, directResult := .failure "boom" }

/-! ## C1 — install handoff -/

/-- C1, counterexample: an `ok` item whose reason is
`download_file_detected:<name>` (click fallback, file observed in the
downloads directory) contributes nothing to `downloaded_files`, so its
downloaded file is left out of the handoff to the install stage — the
claim "no ok item's downloaded file is left out" fails. -/
theorem C1_counterexample :
    run_download_stage_files
        [⟨1, "https://www.nexusmods.com/g/mods/1", "ok", "download_file_detected:foo.zip"⟩] =
      [] ∧
    (⟨1, "https://www.nexusmods.com/g/mods/1", "ok",
        "download_file_detected:foo.zip"⟩ : ItemResult).status = "ok" :=
  ⟨rfl, rfl⟩

/-- C1, amended: the orchestrator hands the Install Stager exactly the
paths parsed from reasons bearing one of the three path prefixes
(`download_saved:`, `direct_download:`, `direct_download_insecure_ssl:`),
in encounter order — all such reasons belong to `ok` items, but `ok`
items with reason `download_file_detected:` or `manual_and_slow_clicked`
are not handed off; exact duplicates are removed by the Install Stager
itself (first occurrence kept, order preserved); and the install stage
runs unless dry-run or skip-install is set. -/
theorem C1_amended (env : ProcEnv) (p nm : String) (paths : List String) (skip dry : Bool) :
    ((find_download_path (process_mod env).reason).isSome = true →
      (process_mod env).status = "ok") ∧
    find_download_path ("download_saved:" ++ p) = some ⟨stripChars isSpaceCh p.data⟩ ∧
    find_download_path ("direct_download:" ++ p) = some ⟨stripChars isSpaceCh p.data⟩ ∧
    find_download_path ("direct_download_insecure_ssl:" ++ p) =
      some ⟨stripChars isSpaceCh p.data⟩ ∧
    find_download_path ("download_file_detected:" ++ nm) = none ∧
    find_download_path "manual_and_slow_clicked" = none ∧
    (unique_downloads paths).Nodup ∧
    List.Sublist (unique_downloads paths) paths ∧
    (∀ q ∈ paths, q ∈ unique_downloads paths) ∧
    (install_stage_runs skip dry = true ↔ skip = false ∧ dry = false) := by
  refine ⟨find_path_implies_ok env, find_download_path_saved p, find_download_path_direct p,
    find_download_path_insecure p, find_download_path_detected nm, rfl,
    (uniqueAux_nodup paths []).1, uniqueAux_sublist paths [],
    fun q hq => uniqueAux_mem paths [] q hq (by simp), ?_⟩
  cases skip <;> cases dry <;> simp [install_stage_runs]

/-- C1, witness for the amended claim at a concrete environment. -/
theorem C1_amended_witness :
    (process_mod sampleEnvDirectOk).status = "ok" ∧
    (install_stage_runs false false = true ↔ false = false ∧ false = false) :=
  ⟨(C1_amended sampleEnvDirectOk "x" "y" [] false false).1 (by decide),
   (C1_amended sampleEnvDirectOk "x" "y" [] false false).2.2.2.2.2.2.2.2.2⟩

/-! ## C2 — ItemResult status enum and ok reasons -/

/-- C2, counterexample: with verification disabled, a successful click
sequence returns status `ok` with the fixed reason
`manual_and_slow_clicked`, which embeds no file path at all
(`find_download_path` extracts nothing from it) — so "`ok` implies a
resolvable file path is embedded in `reason`" fails. -/
theorem C2_counterexample :
    (process_mod sampleEnvNoVerify).status = "ok" ∧
    (process_mod sampleEnvNoVerify).reason = "manual_and_slow_clicked" ∧
    find_download_path (process_mod sampleEnvNoVerify).reason = none :=
  ⟨rfl, rfl, rfl⟩

/-- C2, amended: every `ItemResult` status is one of the five enum
values, and an `ok` reason is either `manual_and_slow_clicked`
(verification disabled, no path) or bears one of the prefixes
`direct_download:`, `direct_download_insecure_ssl:`, `download_saved:`
(full path embedded) or `download_file_detected:` (bare filename
only). -/
theorem C2_amended (env : ProcEnv) :
    (process_mod env).status ∈ ["ok", "partial", "fail", "fallback_needed", "dry_run"] ∧
    ((process_mod env).status = "ok" →
      (process_mod env).reason = "manual_and_slow_clicked" ∨
      (∃ s, (process_mod env).reason = "direct_download:" ++ s) ∨
      (∃ s, (process_mod env).reason = "direct_download_insecure_ssl:" ++ s) ∨
      (∃ s, (process_mod env).reason = "download_saved:" ++ s) ∨
      (∃ s, (process_mod env).reason = "download_file_detected:" ++ s)) := by
  have hst : (process_mod env).status = (procPair env).1 := rfl
  have hrs : (process_mod env).reason = (procPair env).2 := rfl
  rw [hst, hrs]
  rcases procPair_shape env with ⟨d, hp⟩ | ⟨d, hp⟩ | ⟨d, hp⟩ | ⟨e, hp⟩ | hp | hp | hp | hp |
      ⟨s, hp⟩ | ⟨s, hp⟩ | ⟨s, hp⟩ | ⟨s, hp⟩ | hp <;> rw [hp]
  all_goals exact ⟨by simp, by
    first
      | (intro _; left; rfl)
      | (intro _; right; left; exact ⟨_, rfl⟩)
      | (intro _; right; right; left; exact ⟨_, rfl⟩)
      | (intro _; right; right; right; left; exact ⟨_, rfl⟩)
      | (intro _; right; right; right; right; exact ⟨_, rfl⟩)
      | (intro habs; exact absurd habs (show ("partial" : String) ≠ "ok" from by decide))
      | (intro habs; exact absurd habs (show ("fail" : String) ≠ "ok" from by decide))
      | (intro habs; exact absurd habs (show ("dry_run" : String) ≠ "ok" from by decide))
      | (intro habs;
         exact absurd habs (show ("fallback_needed" : String) ≠ "ok" from by decide))⟩

/-- C2, witness for the amended claim at a concrete environment. -/
theorem C2_amended_witness :
    (process_mod sampleEnvNoVerify).status ∈
      ["ok", "partial", "fail", "fallback_needed", "dry_run"] ∧
    ((process_mod sampleEnvNoVerify).reason = "manual_and_slow_clicked" ∨
      (∃ s, (process_mod sampleEnvNoVerify).reason = "direct_download:" ++ s) ∨
      (∃ s, (process_mod sampleEnvNoVerify).reason = "direct_download_insecure_ssl:" ++ s) ∨
      (∃ s, (process_mod sampleEnvNoVerify).reason = "download_saved:" ++ s) ∨
      (∃ s, (process_mod sampleEnvNoVerify).reason = "download_file_detected:" ++ s)) :=
  ⟨(C2_amended sampleEnvNoVerify).1, (C2_amended sampleEnvNoVerify).2 (by decide)⟩

/-! ## C3 — suspicious-filename classification -/

/-- C3, counterexample: `readme.txt` has no recognized archive
extension and does not match the UUID-shaped pattern, yet the code
classifies it as not-good, and the direct path returns `partial` with
the suspicious-filename reason for it — so "suspicious exactly when
UUID-shaped with no archive extension" fails, as does "only a
suspicious filename yields partial". -/
theorem C3_counterexample :
    is_good_archive_name "readme.txt" = false ∧
    suspiciousFilenameMatch (pathName "readme.txt".data) = false ∧
    (process_mod sampleEnvDirectTxt).status = "partial" ∧
    (process_mod sampleEnvDirectTxt).reason = "direct_download_suspicious:readme.txt" :=
  ⟨by decide, by decide, by decide, by decide⟩

/-- C3, amended: a filename is classified good exactly when its
lower-cased form ends in `.zip`, `.7z` or `.rar` — the UUID-pattern
branch of `is_good_archive_name` is dead code (both following branches
return `False`) — and in the direct path an archive-named file is `ok`
while every other name yields `partial` with the suspicious-filename
reason. -/
theorem C3_amended (name : String) (env : ProcEnv) (d : String)
    (hg : directGate env = true) (hd : env.directResult = DirectOutcome.success d) :
    is_good_archive_name name =
      (".zip".data.isSuffixOf (lowerList name.data) ||
        ".7z".data.isSuffixOf (lowerList name.data) ||
        ".rar".data.isSuffixOf (lowerList name.data)) ∧
    ((process_mod env).status, (process_mod env).reason) =
      (if is_good_archive_name (pathNameStr d) then ("ok", "direct_download:" ++ d)
       else ("partial", "direct_download_suspicious:" ++ pathNameStr d)) := by
  constructor
  · unfold is_good_archive_name
    by_cases h : (".zip".data.isSuffixOf (lowerList name.data) ||
        ".7z".data.isSuffixOf (lowerList name.data) ||
        ".rar".data.isSuffixOf (lowerList name.data)) = true
    · rw [if_pos h, h]
    · rw [if_neg h]
      have h' : (".zip".data.isSuffixOf (lowerList name.data) ||
          ".7z".data.isSuffixOf (lowerList name.data) ||
          ".rar".data.isSuffixOf (lowerList name.data)) = false :=
        Bool.eq_false_iff.mpr h
      rw [h']
      show (if suspiciousFilenameMatch (pathName name.data) = true then false else false) = false
      split <;> rfl
  · have hpair : ((process_mod env).status, (process_mod env).reason) = procPair env := rfl
    rw [hpair]
    unfold procPair directPhase
    rw [if_pos hg, hd]
    simp only [directCase]
    unfold directResultFor
    split <;> rfl

/-- C3, witness for the amended claim at a concrete environment. -/
theorem C3_amended_witness :
    is_good_archive_name "My Mod 1.2.ZIP" =
      (".zip".data.isSuffixOf (lowerList "My Mod 1.2.ZIP".data) ||
        ".7z".data.isSuffixOf (lowerList "My Mod 1.2.ZIP".data) ||
        ".rar".data.isSuffixOf (lowerList "My Mod 1.2.ZIP".data)) ∧
    ((process_mod sampleEnvDirectOk).status, (process_mod sampleEnvDirectOk).reason) =
      (if is_good_archive_name (pathNameStr "C:/dl/mod.zip") then
        ("ok", "direct_download:" ++ "C:/dl/mod.zip")
       else ("partial", "direct_download_suspicious:" ++ pathNameStr "C:/dl/mod.zip")) :=
  C3_amended "My Mod 1.2.ZIP" sampleEnvDirectOk "C:/dl/mod.zip" (by decide) rfl

/-! ## C4 — canonical equality versus identity triples -/

/-- C4, counterexample: two accepted URLs that differ only in the
letter case of the domain path segment have equal `(domain, modId,
fileId)` triples (the triple lower-cases the domain) but different
canonical strings (the canonical form preserves the segment as
written) — so "equal canonical strings iff equal triples" fails. -/
theorem C4_counterexample :
    parse_mod_target "https://www.nexusmods.com/Game/mods/5" =
      parse_mod_target "https://www.nexusmods.com/game/mods/5" ∧
    normalize_mod_target_url "https://www.nexusmods.com/Game/mods/5" ≠
      normalize_mod_target_url "https://www.nexusmods.com/game/mods/5" ∧
    (normalize_mod_target_url "https://www.nexusmods.com/Game/mods/5").isSome = true ∧
    (normalize_mod_target_url "https://www.nexusmods.com/game/mods/5").isSome = true :=
  ⟨by decide, by decide, by decide, by decide⟩

/-- C4, amended: only the forward direction holds — for two accepted
URLs, equal normalized canonical strings imply equal (domain, modId,
fileId) triples; the converse fails because the canonical string
preserves the domain segment's letter case (and the mod id numeral as
written) while the triple lower-cases and numerically parses them. -/
theorem C4_amended (u1 u2 s : String)
    (h1 : normalize_mod_target_url u1 = some s)
    (h2 : normalize_mod_target_url u2 = some s) :
    parse_mod_target u1 = parse_mod_target u2 := by
  unfold parse_mod_target
  rw [h1, h2]

/-- C4, witness for the amended claim at concrete URLs with the same
canonical form. -/
theorem C4_amended_witness :
    parse_mod_target "https://www.nexusmods.com/a/mods/3" =
      parse_mod_target "https://www.nexusmods.com/a/mods/3/" :=
  C4_amended "https://www.nexusmods.com/a/mods/3" "https://www.nexusmods.com/a/mods/3/"
    "https://www.nexusmods.com/a/mods/3" (by decide) (by decide)

/-! ## C5 — certificate-error retry -/

/-- C5, confirmed: when the direct path is taken and fails, a
certificate-verification error triggers exactly one retry of the whole
direct path (modelled by the `retryResult` oracle, the
verification-disabled transport attempt); a successful retry classifies
as usual with the insecure-ssl reason, a failed retry and every
non-certificate failure continue into the click fallback — the result
is exactly the click phase's, never a terminal failure of its own. -/
theorem C5_ssl_retry (env : ProcEnv) (msg : String)
    (hg : directGate env = true)
    (hd : env.directResult = DirectOutcome.failure msg) :
    (is_ssl_verify_error msg = true →
      ((∃ d, env.retryResult = DirectOutcome.success d ∧
          ((process_mod env).status, (process_mod env).reason) = directResultFor d true) ∨
        (∃ m2, env.retryResult = DirectOutcome.failure m2 ∧
          ((process_mod env).status, (process_mod env).reason) = clickPhase env))) ∧
    (is_ssl_verify_error msg = false →
      ((process_mod env).status, (process_mod env).reason) = clickPhase env) := by
  have hpair : ((process_mod env).status, (process_mod env).reason) = procPair env := rfl
  rw [hpair]
  unfold procPair directPhase
  rw [if_pos hg, hd]
  simp only [directCase]
  unfold directFailCase
  constructor
  · intro hssl
    rw [if_pos hssl]
    cases hr : env.retryResult with
    | success d =>
      left
      exact ⟨d, rfl, by simp only [directRetryCase]⟩
    | failure m2 =>
      right
      exact ⟨m2, rfl, by simp only [directRetryCase]⟩
  · intro hssl
    rw [if_neg (by rw [hssl]; exact Bool.false_ne_true)]

/-- C5, witness: a non-certificate direct failure at a concrete
environment falls through to the click phase. -/
theorem C5_ssl_retry_witness :
    ((process_mod sampleEnvOtherFail).status, (process_mod sampleEnvOtherFail).reason) =
      clickPhase sampleEnvOtherFail :=
  (C5_ssl_retry sampleEnvOtherFail "boom" (by decide) rfl).2 (by decide)

/-! ## C6 — click-fallback search order and terminal statuses -/

/-- C6, confirmed: in the click fallback (after successful navigation,
not dry-run), if the slow/free search finds nothing and the manual
search finds nothing the item terminates `fallback_needed`; if manual
is found but the second slow/free search fails the item terminates
`partial` with the confirmation-not-found reason; and when the direct
gate is closed, `process_mod`'s result is exactly the click phase's. -/
theorem C6_click_sequence (env : ProcEnv)
    (hnav : navError env = none) (hdry : env.dry_run = false) :
    (env.slowClick1 = none → env.manualClick = none →
      clickPhase env = ("fallback_needed", "manual_button_not_found")) ∧
    (env.slowClick1 = none → env.slowClick2 = none → ∀ m, env.manualClick = some m →
      clickPhase env = ("partial", "download_confirmation_button_not_found")) ∧
    (directGate env = false →
      ((process_mod env).status, (process_mod env).reason) = clickPhase env) := by
  have hstart : clickPhase env = clickSlow1Case env env.slowClick1 := by
    unfold clickPhase
    rw [hnav]
    simp only [clickNavCase]
    rw [hdry]
    rfl
  refine ⟨?_, ?_, ?_⟩
  · intro h1 h2
    rw [hstart, h1]
    simp only [clickSlow1Case]
    rw [h2]
    rfl
  · intro h1 h2 m hm
    rw [hstart, h1]
    simp only [clickSlow1Case]
    rw [hm]
    simp only [clickManualCase]
    rw [h2]
    rfl
  · intro hgf
    have hpair : ((process_mod env).status, (process_mod env).reason) = procPair env := rfl
    rw [hpair]
    unfold procPair
    rw [if_neg (by rw [hgf]; exact Bool.false_ne_true)]

/-- C6, witness: neither control found at a concrete environment. -/
theorem C6_click_sequence_witness :
    clickPhase { sampleEnvNoVerify with slowClick1 := none } =
      ("fallback_needed", "manual_button_not_found") :=
  (C6_click_sequence { sampleEnvNoVerify with slowClick1 := none } rfl rfl).1 rfl rfl

/-! ## C7 — fatal-error handling and completion codes -/

/-- C7, counterexample: in the V3 runner (`auto_que.main`), a user
interrupt during the run records `fatal_error` and exits with the same
completion code 1 as an unexpected failure — the interrupt code is not
distinct from the failure code there. -/
theorem C7_counterexample :
    autoque_main_exit RunOutcome.interrupted = 1 ∧
    autoque_main_exit (RunOutcome.failed "browser crashed") = 1 ∧
    autoque_fatal_error RunOutcome.interrupted = some "Interrupted by user (Ctrl+C)" :=
  ⟨by decide, by decide, rfl⟩

/-- C7, amended: both runners catch run-level fatal errors and record
them under `fatal_error` (the log pair is written unconditionally after
the handlers); a failure with a non-empty message exits 1 and a clean
run exits 0 in both; but only the baseline runner
(`nexus_browser_first.main`) uses a distinct interrupt code (130 ≠ 1) —
the V3 runner (`auto_que.main`) exits 1 for an interrupt during the run
as well. -/
theorem C7_amended (msg : String) (hmsg : msg ≠ "") :
    nexus_fatal_error RunOutcome.interrupted = some "Interrupted by user (Ctrl+C)" ∧
    nexus_fatal_error (RunOutcome.failed msg) = some msg ∧
    autoque_fatal_error (RunOutcome.failed msg) = some msg ∧
    nexus_main_exit (RunOutcome.failed msg) = 1 ∧
    nexus_main_exit RunOutcome.interrupted = 130 ∧
    nexus_main_exit RunOutcome.completed = 0 ∧
    autoque_main_exit (RunOutcome.failed msg) = 1 ∧
    autoque_main_exit RunOutcome.interrupted = 1 ∧
    autoque_main_exit RunOutcome.completed = 0 := by
  have hdata : msg.data ≠ [] := by
    intro h
    apply hmsg
    cases msg with
    | mk data => exact congrArg String.mk h
  refine ⟨rfl, rfl, rfl, ?_, by decide, by decide, ?_, by decide, by decide⟩
  · unfold nexus_main_exit
    rw [if_neg (fun h => RunOutcome.noConfusion h)]
    rw [if_pos (by simp [nexus_fatal_error, truthyFatal, hdata])]
  · unfold autoque_main_exit
    rw [if_pos (by simp [autoque_fatal_error, truthyFatal, hdata])]

/-- C7, witness for the amended claim at a concrete message. -/
theorem C7_amended_witness :
    nexus_main_exit (RunOutcome.failed "boom") = 1 ∧
    autoque_main_exit RunOutcome.interrupted = 1 :=
  ⟨(C7_amended "boom" (by decide)).2.2.2.1, (C7_amended "boom" (by decide)).2.2.2.2.2.2.2.1⟩

/-! ## C8 — dedupe properties -/

/-- C8, confirmed: `dedupe_links` never outputs two entries with equal
canonical form, keeps the first occurrence of each canonical target in
input order (it is an order-preserving sublist of the canonicalized
input, and on `[a, b, a, c]` with `a` repeated it yields `[a, b, c]`),
and the `ExtractionResult.links` list built by the extractor therefore
never contains duplicate canonical targets. -/
theorem C8_dedupe (links : List String) (a b c : String)
    (ha : normalize_mod_target_url a = some a) (hb : normalize_mod_target_url b = some b)
    (hc : normalize_mod_target_url c = some c)
    (hab : a ≠ b) (hac : a ≠ c) (hbc : b ≠ c) :
    (dedupe_links links).Pairwise
      (fun x y => normalize_mod_target_url x ≠ normalize_mod_target_url y) ∧
    List.Sublist (dedupe_links links) (links.filterMap normalize_mod_target_url) ∧
    dedupe_links [a, b, a, c] = [a, b, c] ∧
    (extraction_links links).Pairwise
      (fun x y => normalize_mod_target_url x ≠ normalize_mod_target_url y) := by
  have hfix : ∀ s ∈ dedupe_links links, normalize_mod_target_url s = some s := by
    intro s hs
    obtain ⟨l, _, hcan⟩ := dedupeAux_mem links [] s hs
    exact normalize_mod_target_url_idem hcan
  have hpw : (dedupe_links links).Pairwise
      (fun x y => normalize_mod_target_url x ≠ normalize_mod_target_url y) := by
    have hnd : (dedupe_links links).Nodup := (dedupeAux_nodup links []).1
    refine List.Pairwise.imp_of_mem ?_ hnd
    intro x y hx hy hne heq
    rw [hfix x hx, hfix y hy] at heq
    exact hne (Option.some.inj heq)
  refine ⟨hpw, dedupeAux_sublist links [], ?_, hpw⟩
  unfold dedupe_links
  simp only [dedupeAux, ha, hb, hc]
  rw [if_neg (List.not_mem_nil a)]
  rw [if_neg (show b ∉ [a] from by
    intro hmem
    rcases List.mem_cons.mp hmem with h | h
    · exact hab h.symm
    · simp at h)]
  rw [if_pos (show a ∈ [b, a] from List.mem_cons_of_mem b (List.mem_cons_self a []))]
  rw [if_neg (show c ∉ [b, a] from by
    intro hmem
    rcases List.mem_cons.mp hmem with h | h
    · exact hbc h.symm
    · rcases List.mem_cons.mp h with h | h
      · exact hac h.symm
      · simp at h)]

/-- C8, witness for concrete canonical targets with `a` repeated. -/
theorem C8_dedupe_witness :
    dedupe_links
        ["https://www.nexusmods.com/a/mods/1", "https://www.nexusmods.com/a/mods/2",
          "https://www.nexusmods.com/a/mods/1", "https://www.nexusmods.com/a/mods/3"] =
      ["https://www.nexusmods.com/a/mods/1", "https://www.nexusmods.com/a/mods/2",
        "https://www.nexusmods.com/a/mods/3"] :=
  (C8_dedupe [] "https://www.nexusmods.com/a/mods/1" "https://www.nexusmods.com/a/mods/2"
    "https://www.nexusmods.com/a/mods/3" (by decide) (by decide) (by decide)
    (by decide) (by decide) (by decide)).2.2.1

/-! ## C9 — temporary files never complete the poll -/

theorem wait_temp_none : ∀ (snaps : List PollSnap) (baseline : List String),
    (∀ snap ∈ snaps, ∀ f ∈ snap.files, is_temp_download f = true) →
    wait_for_new_completed_download snaps baseline = none := by
  intro snaps
  induction snaps with
  | nil => intro baseline _; rfl
  | cons snap rest ih =>
    intro baseline h
    unfold wait_for_new_completed_download
    have hfind : findStableNew snap baseline = none := by
      unfold findStableNew
      rw [show (snap.files.filter (fun f => decide (f ∉ baseline))).filter
          (fun f => !(is_temp_download f)) = [] from ?_]
      · rfl
      · rw [List.filter_eq_nil_iff]
        intro f hf
        have hmem : f ∈ snap.files := List.mem_of_mem_filter hf
        rw [h snap (List.mem_cons_self snap rest) f hmem]
        decide
    rw [hfind]
    exact ih baseline (fun s hs => h s (List.mem_cons_of_mem snap hs))

/-- C9, confirmed: if every directory snapshot observed by the poll
contains only files with temporary in-progress extensions (such as
`report.crdownload`, which `is_temp_download` classifies as
temporary), `wait_for_new_completed_download` never returns a completed
candidate, however many iterations elapse before the timeout. -/
theorem C9_temp_never_completed (snaps : List PollSnap) (baseline : List String)
    (h : ∀ snap ∈ snaps, ∀ f ∈ snap.files, is_temp_download f = true) :
    wait_for_new_completed_download snaps baseline = none ∧
    is_temp_download "report.crdownload" = true :=
  ⟨wait_temp_none snaps baseline h, by decide⟩

/-- C9, witness: a directory holding only `report.crdownload` across
several scans yields no completed candidate. -/
theorem C9_temp_never_completed_witness :
    wait_for_new_completed_download
        [⟨["report.crdownload"], fun _ => true, fun _ => [some 5, some 5, some 5]⟩,
          ⟨["report.crdownload"], fun _ => true, fun _ => [some 7, some 7, some 7]⟩,
          ⟨["report.crdownload"], fun _ => true, fun _ => [some 9, some 9, some 9]⟩] [] =
      none ∧
    is_temp_download "report.crdownload" = true :=
  C9_temp_never_completed _ [] (by
    intro snap hs f hf
    rcases List.mem_cons.mp hs with h1 | h1
    · subst h1
      simp only [List.mem_singleton] at hf
      rw [hf]; decide
    rcases List.mem_cons.mp h1 with h2 | h2
    · subst h2
      simp only [List.mem_singleton] at hf
      rw [hf]; decide
    rcases List.mem_cons.mp h2 with h3 | h3
    · subst h3
      simp only [List.mem_singleton] at hf
      rw [hf]; decide
    · simp at h3)

/-! ## C10 — dry_run gates only the click fallback -/

theorem clickAfter_not_dry (env : ProcEnv) : (clickAfter env).1 ≠ "dry_run" := by
  rcases clickAfter_shape env with h | ⟨s, h⟩ | ⟨s, h⟩ | ⟨s, h⟩ | ⟨s, h⟩ | h
  all_goals rw [h]
  all_goals first
    | exact (show ("ok" : String) ≠ "dry_run" from by decide)
    | exact (show ("partial" : String) ≠ "dry_run" from by decide)

theorem clickSlow1Case_not_dry (env : ProcEnv) (x : Option String) :
    (clickSlow1Case env x).1 ≠ "dry_run" := by
  cases x with
  | some sel => exact clickAfter_not_dry env
  | none =>
    simp only [clickSlow1Case]
    cases hm : env.manualClick with
    | none => simp only [clickManualCase]; decide
    | some m =>
      simp only [clickManualCase]
      cases hs2 : env.slowClick2 with
      | none => simp only [clickSlow2Case]; decide
      | some s2 => exact clickAfter_not_dry env

theorem directResultFor_not_dry (d : String) (ins : Bool) :
    (directResultFor d ins).1 ≠ "dry_run" := by
  unfold directResultFor
  split
  · exact (show ("ok" : String) ≠ "dry_run" from by decide)
  · exact (show ("partial" : String) ≠ "dry_run" from by decide)

theorem clickPhase_dry (env : ProcEnv) (h : (clickPhase env).1 = "dry_run") :
    clickPhase env = ("dry_run", "navigation_only") ∧ navError env = none ∧
      env.dry_run = true := by
  unfold clickPhase at h ⊢
  cases hnav : navError env with
  | some e =>
    rw [hnav] at h
    simp only [clickNavCase] at h
    exact absurd h (show ("fail" : String) ≠ "dry_run" from by decide)
  | none =>
    rw [hnav] at h
    simp only [clickNavCase] at h ⊢
    by_cases hdry : env.dry_run = true
    · rw [if_pos hdry] at h ⊢
      exact ⟨rfl, by trivial, hdry⟩
    · rw [if_neg hdry] at h
      exact absurd h (clickSlow1Case_not_dry env env.slowClick1)

/-- C10, confirmed (implicit claim): `dry_run` gates only the click
fallback — with `dry_run` set, if the direct-path gate holds and the
direct download succeeds, `process_mod` still returns the direct-path
classification (`ok` or `partial`), not `dry_run`; and a `dry_run`
status arises only inside the click fallback, after a successful
navigation, with the fixed reason `navigation_only`. -/
theorem C10_dry_run_gates_click_only (env : ProcEnv) (d : String) :
    (env.dry_run = true → directGate env = true →
      env.directResult = DirectOutcome.success d →
      ((process_mod env).status, (process_mod env).reason) = directResultFor d false ∧
        ((directResultFor d false).1 = "ok" ∨ (directResultFor d false).1 = "partial")) ∧
    ((process_mod env).status = "dry_run" →
      (process_mod env).reason = "navigation_only" ∧ navError env = none ∧
        env.dry_run = true) := by
  constructor
  · intro _ hg hd
    constructor
    · have hpair : ((process_mod env).status, (process_mod env).reason) = procPair env := rfl
      rw [hpair]
      unfold procPair directPhase
      rw [if_pos hg, hd]
      simp only [directCase]
    · unfold directResultFor
      split
      · left; rfl
      · right; rfl
  · intro hst
    have hpp : (procPair env).1 = "dry_run" := hst
    have hreason : (process_mod env).reason = (procPair env).2 := rfl
    unfold procPair at hpp hreason
    by_cases hg : directGate env = true
    · rw [if_pos hg] at hpp hreason
      unfold directPhase at hpp hreason
      cases hd : env.directResult with
      | success d2 =>
        rw [hd] at hpp
        simp only [directCase] at hpp
        exact absurd hpp (directResultFor_not_dry d2 false)
      | failure msg =>
        rw [hd] at hpp hreason
        simp only [directCase] at hpp hreason
        unfold directFailCase at hpp hreason
        by_cases hssl : is_ssl_verify_error msg = true
        · rw [if_pos hssl] at hpp hreason
          cases hr : env.retryResult with
          | success d2 =>
            rw [hr] at hpp
            simp only [directRetryCase] at hpp
            exact absurd hpp (directResultFor_not_dry d2 true)
          | failure m2 =>
            rw [hr] at hpp hreason
            simp only [directRetryCase] at hpp hreason
            obtain ⟨hcp, hn, hd2⟩ := clickPhase_dry env hpp
            rw [hreason, hcp]
            exact ⟨rfl, hn, hd2⟩
        · rw [if_neg hssl] at hpp hreason
          obtain ⟨hcp, hn, hd2⟩ := clickPhase_dry env hpp
          rw [hreason, hcp]
          exact ⟨rfl, hn, hd2⟩
    · rw [if_neg hg] at hpp hreason
      obtain ⟨hcp, hn, hd2⟩ := clickPhase_dry env hpp
      rw [hreason, hcp]
      exact ⟨rfl, hn, hd2⟩

/-- C10, witness: with `dry_run` set and a working direct path the
result is the direct `ok`, and with a failing direct path the result is
`dry_run`. -/
theorem C10_dry_run_gates_click_only_witness :
    ((process_mod sampleEnvDry).status, (process_mod sampleEnvDry).reason) =
      directResultFor "C:/dl/mod.zip" false ∧
    (process_mod sampleEnvDryFail).reason = "navigation_only" :=
  ⟨((C10_dry_run_gates_click_only sampleEnvDry "C:/dl/mod.zip").1 rfl (by decide) rfl).1,
   ((C10_dry_run_gates_click_only sampleEnvDryFail "C:/dl/mod.zip").2 (by decide)).1⟩

example : normalize_mod_target_url "https://www.nexusmods.com/stardewvalley/mods/5" =
    some "https://www.nexusmods.com/stardewvalley/mods/5" := by decide

example : normalize_mod_target_url "http://nexusmods.com/stardewvalley/mods/5/?file_id=77&x=1" =
    some "https://www.nexusmods.com/stardewvalley/mods/5?tab=files&file_id=77" := by decide

example : normalize_mod_target_url "https://example.com/stardewvalley/mods/5" = none := by decide

example : parse_mod_target "https://www.nexusmods.com/Game/mods/5" =
    (some "game", some 5, none) := by decide

end NexusBatch
